import Mathlib

/-!
Verification of a Bitcask-style embedded key-value store against its
natural-language specification.  The repository contains two generations of
the implementation; the definitions below embed the Rust sources
(`src/bitcask.rs`, `bitcask/src/bitcask.rs`, `bitcask/src/database/core.rs`,
`bitcask/src/database/common.rs`, `lib/database/src/data_storage/mod.rs`)
as executable Lean functions.  Where a file of the repository is absent from
the provided sources (keydir.rs, utils.rs, the storage backend internals,
the merge helpers), the corresponding definition is modelled from the
specification and says so in its doc comment.
-/

namespace Bitcask

/-- Bytes are modelled as lists of naturals; every byte produced by the
encoders is reduced mod 256. -/
abbrev Bytes := List Nat

/-- The reserved tombstone sentinel.  Modelled from the spec: `utils.rs`
(`TOMBSTONE_VALUE`) is absent from the sources; the spec fixes the literal
`"bitcask_tombstone"`, whose UTF-8 bytes are listed here. -/
def tombstoneValue : Bytes :=
  [0x62, 0x69, 0x74, 0x63, 0x61, 0x73, 0x6b, 0x5f,
   0x74, 0x6f, 0x6d, 0x62, 0x73, 0x74, 0x6f, 0x6e, 0x65]

/-- `is_tombstone` from `utils.rs`.  Modelled from the spec: a value denotes
deletion exactly when it equals the reserved sentinel byte sequence. -/
def is_tombstone (v : Bytes) : Bool := v == tombstoneValue

/-- `DATA_FILE_KEY_OFFSET` from `database/constants.rs` (absent from the
sources): the fixed row header, crc(4) + timestamp(8) + key_size(8) +
value_size(8), as the spec's `HEADER_ROW = 4+8+8+8`. -/
def DATA_FILE_KEY_OFFSET : Nat := 4 + 8 + 8 + 8

/-- `FILE_HEADER_SIZE` from `common/formatter.rs`.  Modelled from the spec:
a fixed-size data-file header holding a magic number and codec version; the
spec leaves the exact size to the implementation, we fix 8 bytes. -/
def FILE_HEADER_SIZE : Nat := 8

/-- Big-endian encoding of a natural as 4 bytes (`u32::to_be_bytes`). -/
def u32be (n : Nat) : Bytes :=
  [n / 2 ^ 24 % 256, n / 2 ^ 16 % 256, n / 2 ^ 8 % 256, n % 256]

/-- Big-endian encoding of a natural as 8 bytes (`u64::to_be_bytes`). -/
def u64be (n : Nat) : Bytes :=
  [n / 2 ^ 56 % 256, n / 2 ^ 48 % 256, n / 2 ^ 40 % 256, n / 2 ^ 32 % 256,
   n / 2 ^ 24 % 256, n / 2 ^ 16 % 256, n / 2 ^ 8 % 256, n % 256]

/-- One MSB-first step of the CRC-32/CKSUM polynomial division
(poly 0x04C11DB7), on a 32-bit accumulator. -/
def crcShift (c : Nat) : Nat :=
  if c % 2 ^ 32 < 2 ^ 31 then c * 2 % 2 ^ 32
  else Nat.xor (c * 2 % 2 ^ 32) 0x04C11DB7

/-- Feed one message byte into the CRC-32/CKSUM accumulator. -/
def crcUpdateByte (c b : Nat) : Nat :=
  let c1 := Nat.xor c (b % 256 * 2 ^ 24)
  crcShift (crcShift (crcShift (crcShift
    (crcShift (crcShift (crcShift (crcShift c1)))))))

/-- CRC-32/CKSUM of a byte string, as computed by
`Crc::<u32>::new(&CRC_32_CKSUM)` in `database/common.rs`: init 0,
MSB-first, poly 0x04C11DB7, final xor 0xFFFFFFFF. -/
def crc32cksum (msg : Bytes) : Nat :=
  Nat.xor (msg.foldl crcUpdateByte 0) 0xFFFFFFFF

/-- `RowToWrite` from `database/common.rs`. -/
structure RowToWrite where
  crc : Nat
  timestamp : Nat
  key_size : Nat
  value_size : Nat
  key : Bytes
  value : Bytes
  size : Nat
  deriving Repr, DecidableEq

/-- `RowToWrite::new_with_timestamp`: sizes from the key and value, CRC over
timestamp, key size, value size, key and value (all integers big-endian),
total size `DATA_FILE_KEY_OFFSET + key_size + value_size`. -/
def RowToWrite.new_with_timestamp (key value : Bytes) (timestamp : Nat) : RowToWrite :=
  let key_size := key.length
  let value_size := value.length
  { crc := crc32cksum (u64be timestamp ++ u64be key_size ++ u64be value_size
      ++ key ++ value)
    timestamp := timestamp
    key_size := key_size
    value_size := value_size
    key := key
    value := value
    size := DATA_FILE_KEY_OFFSET + key_size + value_size }

/-- `RowToWrite::to_bytes`: crc, timestamp, key size, value size (big
endian), then the key bytes and the value bytes. -/
def RowToWrite.to_bytes (r : RowToWrite) : Bytes :=
  u32be r.crc ++ u64be r.timestamp ++ u64be r.key_size ++ u64be r.value_size
    ++ r.key ++ r.value

theorem u32be_length (n : Nat) : (u32be n).length = 4 := rfl

theorem u64be_length (n : Nat) : (u64be n).length = 8 := rfl

/-- A decoded row as it sits in a data file: timestamp, key and value
(the logical content of `RowToWrite` / `RowToRead`). -/
structure Row where
  timestamp : Nat
  key : Bytes
  value : Bytes
  deriving Repr, DecidableEq

/-- The on-disk size of a row, `DATA_FILE_KEY_OFFSET + key_size +
value_size` as computed in `RowToWrite::new_with_timestamp`. -/
def Row.size (r : Row) : Nat :=
  DATA_FILE_KEY_OFFSET + r.key.length + r.value.length

/-- `RowLocation` from `database/common.rs`. -/
structure RowLocation where
  file_id : Nat
  row_offset : Nat
  row_size : Nat
  deriving Repr, DecidableEq

/-- `TimedValue` from `database/common.rs` (value plus row timestamp). -/
structure TimedValue where
  value : Bytes
  timestamp : Nat
  deriving Repr, DecidableEq

/-- `DataStorageError` from `lib/database/src/data_storage/mod.rs`,
restricted to the variants the model can raise. -/
inductive DataStorageError where
  | storageOverflow
  | permissionDenied
  | readRowFailed
  deriving Repr, DecidableEq

/-- `BitcaskError` from `error.rs`, restricted to the variants the model
can raise. -/
inductive BitcaskError where
  | invalidParameter (name reason : String)
  | databaseBroken (msg : String)
  | targetFileIdNotFound (file_id : Nat)
  | storageError (e : DataStorageError)
  deriving Repr, DecidableEq

/-- Rust `Result`, with a fixed error type per use. -/
inductive Res (ε : Type) (α : Type) where
  | ok (a : α)
  | err (e : ε)
  deriving Repr, DecidableEq

/-- `e.to_string()` used when `put` marks the sticky error
(`mark_db_error(e.to_string())` in `src/bitcask.rs`); the exact display
strings are immaterial, one per variant. -/
def BitcaskError.toMessage : BitcaskError → String
  | .invalidParameter _ _ => "invalid parameter"
  | .databaseBroken _ => "database broken"
  | .targetFileIdNotFound _ => "target file id not found"
  | .storageError .storageOverflow => "storage overflow"
  | .storageError .permissionDenied => "permission denied"
  | .storageError .readRowFailed => "read row failed"

/-- `DataStorage` from `lib/database/src/data_storage/mod.rs`: one data
file, identified by `file_id`, holding rows at their byte offsets (the
first row starts at `FILE_HEADER_SIZE`), writable or read-only. -/
structure DataStorage where
  file_id : Nat
  rows : List (Nat × Row)
  readonly : Bool
  deriving Repr, DecidableEq

namespace DataStorage

/-- Data bytes written into the file so far, the `file_size()` that
`Database::do_flush_writing_file` compares against 0 ("flush file only
when we actually wrote something").  Modelled from the spec: the storage
backend internals are absent from the sources. -/
def file_size (s : DataStorage) : Nat :=
  (s.rows.map (fun p => p.2.size)).sum

/-- The append cursor: the file header followed by everything written. -/
def write_offset (s : DataStorage) : Nat :=
  FILE_HEADER_SIZE + s.file_size

/-- `DataStorage::new`: a fresh writable file containing only the header. -/
def new (file_id : Nat) : DataStorage :=
  { file_id := file_id, rows := [], readonly := false }

/-- `write_row` (`DataStorageWriter`): fails with `PermissionDenied` on a
read-only file; fails with `StorageOverflow`, writing nothing, when the
append would exceed `max_data_file_size` (modelled from the spec: "no
bytes are written when overflow is reported"); otherwise appends the row
at the current cursor and returns its location. -/
def write_row (max_data_file_size : Nat) (s : DataStorage) (r : Row) :
    Res DataStorageError (RowLocation × DataStorage) :=
  if s.readonly then .err .permissionDenied
  else if s.write_offset + r.size > max_data_file_size then .err .storageOverflow
  else .ok (⟨s.file_id, s.write_offset, r.size⟩,
    { s with rows := s.rows ++ [(s.write_offset, r)] })

/-- `read_value`: positioned read of one row at a byte offset; the decoded
value and timestamp, or a read error when no row starts there.  The size
argument mirrors the Rust signature; a location produced by `write_row`
always carries the matching size. -/
def read_value (s : DataStorage) (row_offset : Nat) (_row_size : Nat) :
    Res DataStorageError TimedValue :=
  match s.rows.find? (fun p => p.1 == row_offset) with
  | some p => .ok ⟨p.2.value, p.2.timestamp⟩
  | none => .err .readRowFailed

/-- `transit_to_readonly`: flush and mark read-only. -/
def transit_to_readonly (s : DataStorage) : DataStorage :=
  { s with readonly := true }

end DataStorage

/-- `Database` from `bitcask/src/database/core.rs`: one writable storage,
the stable (read-only) storages, the shared `FileIdGenerator` counter and
the sticky error flag. -/
structure Database where
  writing_storage : DataStorage
  stable_storages : List DataStorage
  file_id_counter : Nat
  is_error : Option String
  deriving Repr, DecidableEq

/-- The options threaded through the database layer
(`DataStorageOptions::max_data_file_size` is the only field the model
needs; the initial capacity is a pre-sizing hint with no logical effect). -/
structure DatabaseOptions where
  max_data_file_size : Nat
  deriving Repr, DecidableEq

namespace Database

/-- `Database::check_db_error`. -/
def check_db_error (db : Database) : Res BitcaskError Unit :=
  match db.is_error with
  | some m => .err (.databaseBroken m)
  | none => .ok ()

/-- `Database::mark_db_error`. -/
def mark_db_error (db : Database) (msg : String) : Database :=
  { db with is_error := some msg }

/-- `Database::do_flush_writing_file`: skip when nothing was written;
otherwise allocate the next file id, start a fresh writable file, transit
the old one to read-only and insert it into the stable map. -/
def do_flush_writing_file (db : Database) : Database :=
  if db.writing_storage.file_size == 0 then db
  else
    let next_file_id := db.file_id_counter + 1
    { db with
      writing_storage := DataStorage.new next_file_id
      stable_storages :=
        db.stable_storages ++ [db.writing_storage.transit_to_readonly]
      file_id_counter := next_file_id }

/-- `Database::flush_writing_file` (same body under the writing-file lock). -/
def flush_writing_file (db : Database) : Database :=
  db.do_flush_writing_file

/-- `Database::write`: try the append; on `StorageOverflow` flush the
writing file and retry exactly once; any other error (or a second
overflow) propagates. -/
def write (opts : DatabaseOptions) (db : Database) (row : Row) :
    Res BitcaskError (RowLocation × Database) :=
  match db.writing_storage.write_row opts.max_data_file_size row with
  | .err .storageOverflow =>
    let db1 := db.do_flush_writing_file
    match db1.writing_storage.write_row opts.max_data_file_size row with
    | .ok (loc, w) => .ok (loc, { db1 with writing_storage := w })
    | .err e => .err (.storageError e)
  | .ok (loc, w) => .ok (loc, { db with writing_storage := w })
  | .err e => .err (.storageError e)

/-- `Database::read_value`: dispatch on the file id, writable file first,
then the stable map; `TargetFileIdNotFound` when the id is unknown. -/
def read_value (db : Database) (loc : RowLocation) : Res BitcaskError TimedValue :=
  if loc.file_id == db.writing_storage.file_id then
    match db.writing_storage.read_value loc.row_offset loc.row_size with
    | .ok tv => .ok tv
    | .err e => .err (.storageError e)
  else
    match db.stable_storages.find? (fun s => s.file_id == loc.file_id) with
    | some f =>
      match f.read_value loc.row_offset loc.row_size with
      | .ok tv => .ok tv
      | .err e => .err (.storageError e)
    | none => .err (.targetFileIdNotFound loc.file_id)

/-- `Database::get_max_file_id` (the writable file always carries the
largest live id). -/
def get_max_file_id (db : Database) : Nat :=
  db.writing_storage.file_id

/-- `Database::open` on an empty directory with a shared id counter:
no data files, so a fresh writable file with the next allocated id
(`prepare_load_storages`). -/
def openEmpty (counter : Nat) : Database :=
  { writing_storage := DataStorage.new (counter + 1)
    stable_storages := []
    file_id_counter := counter + 1
    is_error := none }

end Database

/-- A keydir entry: the live row location plus its timestamp (spec §3:
`(file_id, row_offset, row_size, timestamp)`). -/
structure KeyDirEntry where
  loc : RowLocation
  tstmp : Nat
  deriving Repr, DecidableEq

/-- The keydir, the in-memory index.  Modelled from the spec: `keydir.rs`
is absent from the sources; the spec describes a map from key bytes to
entries with `put` (unconditional), `delete`, `contains_key`, `get` and
`checked_put` (insert only if absent).  Modelled as an association list
with unique keys. -/
abbrev KeyDir := List (Bytes × KeyDirEntry)

namespace KeyDir

/-- `KeyDir::get`: the entry for a key, if present. -/
def get (kd : KeyDir) (k : Bytes) : Option KeyDirEntry :=
  match kd.find? (fun p => p.1 == k) with
  | some p => some p.2
  | none => none

/-- `KeyDir::contains_key`. -/
def contains_key (kd : KeyDir) (k : Bytes) : Bool :=
  (kd.get k).isSome

/-- `KeyDir::put`: unconditional insert, last write wins. -/
def put (kd : KeyDir) (k : Bytes) (e : KeyDirEntry) : KeyDir :=
  match kd with
  | [] => [(k, e)]
  | p :: rest => if p.1 == k then (k, e) :: rest else p :: put rest k e

/-- `KeyDir::delete`: remove the key. -/
def delete (kd : KeyDir) (k : Bytes) : KeyDir :=
  kd.filter (fun p => p.1 != k)

/-- `KeyDir::checked_put` (used by merge): insert only if absent. -/
def checked_put (kd : KeyDir) (k : Bytes) (e : KeyDirEntry) : KeyDir :=
  if kd.contains_key k then kd else kd ++ [(k, e)]

end KeyDir

/-- `BitcaskOptions` from `src/bitcask.rs` (the newer facade); the sync
interval drives a background flusher and has no logical effect here. -/
structure BitcaskOptions where
  max_data_file_size : Nat
  init_data_file_capacity : Nat
  max_key_size : Nat
  max_value_size : Nat
  deriving Repr, DecidableEq

/-- `BitcaskOptions::get_database_options`. -/
def BitcaskOptions.get_database_options (o : BitcaskOptions) : DatabaseOptions :=
  { max_data_file_size := o.max_data_file_size }

/-- `BitcaskOptions::validate` from `src/bitcask.rs`: each recognized
positive-integer option is compared with 0 in turn.  The source reports
the `init_data_file_capacity` violation under the name `"max_file_size"`
(the same string as the first check). -/
def BitcaskOptions.validate (o : BitcaskOptions) : Option BitcaskError :=
  if o.max_data_file_size == 0 then
    some (.invalidParameter "max_file_size" "need a positive value")
  else if o.init_data_file_capacity == 0 then
    some (.invalidParameter "max_file_size" "need a positive value")
  else if o.max_key_size == 0 then
    some (.invalidParameter "max_key_size" "need a positive value")
  else if o.max_value_size == 0 then
    some (.invalidParameter "max_value_size" "need a positive value")
  else none

/-- `BitcaskOptions` from `bitcask/src/bitcask.rs` (the older facade). -/
structure BitcaskOptionsV0 where
  max_file_size : Nat
  max_key_size : Nat
  max_value_size : Nat
  deriving Repr, DecidableEq

/-- `BitcaskOptions::validate` from `bitcask/src/bitcask.rs`.  Each check
builds `Some(InvalidParameter(..))` as a bare expression statement and
discards it instead of returning it (and compares an unsigned quantity
with `<= 0`), so the function always falls through to `None`.  The
discarded expressions are kept as dead bindings to mirror the source. -/
def BitcaskOptionsV0.validate (o : BitcaskOptionsV0) : Option BitcaskError :=
  let _dead1 : Option BitcaskError :=
    if o.max_file_size ≤ 0 then
      some (.invalidParameter "max_file_size" "need a positive value")
    else none
  let _dead2 : Option BitcaskError :=
    if o.max_key_size ≤ 0 then
      some (.invalidParameter "max_key_size" "need a positive value")
    else none
  let _dead3 : Option BitcaskError :=
    if o.max_value_size ≤ 0 then
      some (.invalidParameter "max_value_size" "need a positive value")
    else none
  none

/-- Whether `Bitcask::open` of the older facade rejects the options:
it returns the validation error when `validate` produces one and
otherwise goes on to construct the instance. -/
def BitcaskOptionsV0.openRejects (o : BitcaskOptionsV0) : Bool :=
  (o.validate).isSome

/-- The Bitcask instance state: the keydir behind its lock, the database,
and the monotonic clock supplying `RowToWrite::new`'s timestamps (the
spec's `now() -> u64` primitive, threaded explicitly). -/
structure BitcaskState where
  keydir : KeyDir
  db : Database
  clock : Nat
  deriving Repr, DecidableEq

/-- `Bitcask::open` on an empty directory: empty keydir, fresh database,
id generator starting at 0. -/
def openEmptyBitcask : BitcaskState :=
  { keydir := [], db := Database.openEmpty 0, clock := 0 }

/-- `Bitcask::put` from `src/bitcask.rs`: size checks, sticky-error check,
append under the keydir write lock, then index update; a failed append
marks the sticky error. -/
def bput (opts : BitcaskOptions) (s : BitcaskState) (key value : Bytes) :
    Res BitcaskError Unit × BitcaskState :=
  if key.length > opts.max_key_size then
    (.err (.invalidParameter "key" "key size overflow"), s)
  else if value.length > opts.max_value_size then
    (.err (.invalidParameter "value" "values size overflow"), s)
  else
    match s.db.check_db_error with
    | .err e => (.err e, s)
    | .ok _ =>
      let row : Row := ⟨s.clock, key, value⟩
      match Database.write opts.get_database_options s.db row with
      | .err e =>
        (.err e, { s with db := s.db.mark_db_error e.toMessage, clock := s.clock + 1 })
      | .ok (loc, db1) =>
        (.ok (), { keydir := s.keydir.put key ⟨loc, s.clock⟩
                   db := db1
                   clock := s.clock + 1 })

/-- `Bitcask::get` from `src/bitcask.rs`: sticky-error check, keydir
lookup, positioned read, tombstone check. -/
def bget (s : BitcaskState) (key : Bytes) : Res BitcaskError (Option Bytes) :=
  match s.db.check_db_error with
  | .err e => .err e
  | .ok _ =>
    match s.keydir.get key with
    | none => .ok none
    | some e =>
      match s.db.read_value e.loc with
      | .err e1 => .err e1
      | .ok tv => if is_tombstone tv.value then .ok none else .ok (some tv.value)

/-- `Bitcask::has` from `src/bitcask.rs`. -/
def bhas (s : BitcaskState) (key : Bytes) : Res BitcaskError Bool :=
  match s.db.check_db_error with
  | .err e => .err e
  | .ok _ => .ok (s.keydir.get key).isSome

/-- `Bitcask::delete` from `src/bitcask.rs`: sticky-error check; when the
key is present, append a tombstone row and drop the keydir entry;
otherwise do nothing. -/
def bdelete (opts : BitcaskOptions) (s : BitcaskState) (key : Bytes) :
    Res BitcaskError Unit × BitcaskState :=
  match s.db.check_db_error with
  | .err e => (.err e, s)
  | .ok _ =>
    if s.keydir.contains_key key then
      match Database.write opts.get_database_options s.db ⟨s.clock, key, tombstoneValue⟩ with
      | .err e => (.err e, { s with clock := s.clock + 1 })
      | .ok (_, db1) =>
        (.ok (), { keydir := s.keydir.delete key, db := db1, clock := s.clock + 1 })
    else (.ok (), s)

/-- `Bitcask::sync` from `src/bitcask.rs`: flush the active file; no
sticky-error check.  Flushing buffered bytes has no logical effect in the
model. -/
def bsync (s : BitcaskState) : Res BitcaskError Unit × BitcaskState :=
  (.ok (), s)

/-- `BitcaskStats` counters from `src/bitcask.rs` / `core.rs`. -/
structure BitcaskStats where
  number_of_data_files : Nat
  number_of_keys : Nat
  deriving Repr, DecidableEq

/-- `Bitcask::stats` from `src/bitcask.rs`: keydir size and file counts;
no sticky-error check on the facade, and `Database::stats` never consults
the flag either. -/
def bstats (s : BitcaskState) : Res BitcaskError BitcaskStats :=
  .ok ⟨s.db.stable_storages.length + 1, s.keydir.length⟩

/-- The loop body of `Bitcask::write_merged_files`
(`bitcask/src/bitcask.rs`): for each snapshot entry read the current
value from the main database, skip tombstones, append the rest into the
merge database with the original timestamp (`write_with_timestamp`,
modelled from the spec since the database half is absent from the
sources), and record the new location via `checked_put`. -/
def write_merged_loop (opts : DatabaseOptions) (mainDb : Database) :
    List (Bytes × KeyDirEntry) → Database → KeyDir →
    Res BitcaskError (Database × KeyDir)
  | [], mdb, acc => .ok (mdb, acc)
  | (k, e) :: rest, mdb, acc =>
    match mainDb.read_value e.loc with
    | .err e1 => .err e1
    | .ok tv =>
      if is_tombstone tv.value then write_merged_loop opts mainDb rest mdb acc
      else
        match Database.write opts mdb ⟨e.tstmp, k, tv.value⟩ with
        | .err e1 => .err e1
        | .ok (pos, mdb1) =>
          write_merged_loop opts mainDb rest mdb1 (acc.checked_put k ⟨pos, e.tstmp⟩)

/-- `Bitcask::merge`: sticky-error check (`src/bitcask.rs` facade), then
the protocol of `bitcask/src/bitcask.rs`: flush the active file and
snapshot the keydir and max file id; rewrite the live records into a
fresh merge database sharing the id generator; flush it; commit the
staged files and load them as the database's file set
(`commit_merge_files` / `load_files`, modelled from the spec: the staged
files, whose ids are strictly greater than every pre-merge id, become
the stable set and the merge database's writable file is reused);
overlay the rewritten locations onto the keydir.  `purge_outdated_files`
then unlinks the pre-merge files from disk; they are no longer referenced
by the loaded file set. -/
def bmerge (opts : BitcaskOptions) (s : BitcaskState) :
    Res BitcaskError Unit × BitcaskState :=
  match s.db.check_db_error with
  | .err e => (.err e, s)
  | .ok _ =>
    let dopts := opts.get_database_options
    let db1 := s.db.flush_writing_file
    let kdSnapshot := s.keydir
    let _known_max_file_id := db1.get_max_file_id
    let mdb0 := Database.openEmpty db1.file_id_counter
    match write_merged_loop dopts db1 kdSnapshot mdb0 [] with
    | .err e => (.err e, { s with db := db1 })
    | .ok (mdb1, new_kd) =>
      let mdb2 := mdb1.flush_writing_file
      let kd1 := new_kd.foldl (fun kd p => kd.put p.1 p.2) s.keydir
      let db2 : Database :=
        { writing_storage := mdb2.writing_storage
          stable_storages := mdb2.stable_storages
          file_id_counter := mdb2.file_id_counter
          is_error := db1.is_error }
      (.ok (), { keydir := kd1, db := db2, clock := s.clock })

/-- The public mutating operations, for stating "until a later
`put(k,_)` or `delete(k)`" over arbitrary interleavings. -/
inductive BOp where
  | put (k v : Bytes)
  | del (k : Bytes)
  | merge
  | sync
  deriving Repr, DecidableEq

/-- Run one public operation. -/
def execOp (opts : BitcaskOptions) (op : BOp) (s : BitcaskState) :
    Res BitcaskError Unit × BitcaskState :=
  match op with
  | .put k v => bput opts s k v
  | .del k => bdelete opts s k
  | .merge => bmerge opts s
  | .sync => bsync s

/-- Run a sequence of operations, requiring every one to succeed (the
spec's "sequence of valid operations"); `none` when some operation
fails. -/
def runOps (opts : BitcaskOptions) : List BOp → BitcaskState → Option BitcaskState
  | [], s => some s
  | op :: rest, s =>
    match execOp opts op s with
    | (.ok _, s1) => runOps opts rest s1
    | (.err _, _) => none

/-- No operation in the list writes or deletes the given key. -/
def opsAvoid (k : Bytes) (ops : List BOp) : Bool :=
  ops.all fun op =>
    match op with
    | .put k1 _ => k1 != k
    | .del k1 => k1 != k
    | .merge => true
    | .sync => true

/-- `RecoveredRow` from `database/common.rs`. -/
structure RecoveredRow where
  file_id : Nat
  timestamp : Nat
  row_offset : Nat
  row_size : Nat
  key : Bytes
  is_tombstone : Bool
  deriving Repr, DecidableEq

/-- Insertion into a sorted list, for `file_ids.sort()`. -/
def insertSorted (x : Nat) : List Nat → List Nat
  | [] => [x]
  | y :: ys => if x ≤ y then x :: y :: ys else y :: insertSorted x ys

/-- `Vec::sort` on file ids (ascending). -/
def sortNat : List Nat → List Nat
  | [] => []
  | x :: xs => insertSorted x (sortNat xs)

/-- The id list built by `Database::recovery_iter`: stable ids plus the
writing id, `sort()`ed then `reverse()`d. -/
def recovery_file_ids (db : Database) : List Nat :=
  (sortNat (db.stable_storages.map (fun s => s.file_id)
    ++ [db.writing_storage.file_id])).reverse

/-- `Vec::pop`: removes and returns the last element. -/
def vecPop (l : List Nat) : Option (Nat × List Nat) :=
  match l.reverse with
  | [] => none
  | x :: xs => some (x, xs.reverse)

/-- The pop loop with explicit fuel (each `pop` shortens the vector, so
the vector's length bounds the number of iterations). -/
def popOrderFuel : Nat → List Nat → List Nat
  | 0, _ => []
  | Nat.succ n, l =>
    match vecPop l with
    | none => []
    | some (x, rest) => x :: popOrderFuel n rest

/-- The order in which `DatabaseRecoverIter` consumes its id vector:
`new` and `next` both take ids with `Vec::pop`, i.e. from the back. -/
def popOrder (l : List Nat) : List Nat :=
  popOrderFuel l.length l

/-- The rows `recovered_iter` yields for one data file when no hint file
exists: a sequential scan of the file, flagging a row as a tombstone
exactly when its value equals the sentinel. -/
def scan_recovered_rows (s : DataStorage) : List RecoveredRow :=
  s.rows.map fun p =>
    { file_id := s.file_id
      timestamp := p.2.timestamp
      row_offset := p.1
      row_size := p.2.size
      key := p.2.key
      is_tombstone := is_tombstone p.2.value }

/-- `recovered_iter` for one file id: the hint-file stream when a hint
file exists for the id (hint contents modelled from the spec: one
`RecoveredRow` per record, with the stored tombstone flag), otherwise a
sequential scan of the data file. -/
def recovered_iter (db : Database) (hints : List (Nat × List RecoveredRow))
    (file_id : Nat) : List RecoveredRow :=
  match hints.find? (fun p => p.1 == file_id) with
  | some p => p.2
  | none =>
    if file_id == db.writing_storage.file_id then
      scan_recovered_rows db.writing_storage
    else
      match db.stable_storages.find? (fun s => s.file_id == file_id) with
      | some s => scan_recovered_rows s
      | none => []

/-- Everything `DatabaseRecoverIter` yields, in order: the ids of
`recovery_file_ids`, consumed by `Vec::pop`, each expanded through
`recovered_iter`. -/
def database_recover_rows (db : Database)
    (hints : List (Nat × List RecoveredRow)) : List RecoveredRow :=
  (List.map (recovered_iter db hints) (popOrder (recovery_file_ids db))).flatten

/-- The rows of one data file, looked up by id (the `DataStorage::open`
of `Database::iter` re-reads the file from the directory; its contents
are the writable or stable storage of that id). -/
def storage_rows_by_id (db : Database) (file_id : Nat) : List (Nat × Row) :=
  if file_id == db.writing_storage.file_id then db.writing_storage.rows
  else
    match db.stable_storages.find? (fun s => s.file_id == file_id) with
    | some s => s.rows
    | none => []

/-- The file order of `Database::iter`: the collected ids are
`sort_by_key`ed ascending, the iterator vector is built over them
`.rev()`ed (descending), and `DatabaseIter::new`/`next` consume that
vector with `Vec::pop` from the back — so files are visited in ascending
id order, stable files then the active one. -/
def database_iter_file_order (db : Database) : List Nat :=
  popOrder ((sortNat (db.stable_storages.map (fun s => s.file_id) ++
    [db.writing_storage.file_id])).reverse)

/-- The `(key, value)` pairs `Database::iter` yields, in order: every
row of every data file (not deduplicated), files in `database_iter_file_order`,
rows within a file in offset order. -/
def database_iter_pairs (db : Database) : List (Bytes × Bytes) :=
  (List.map
    (fun id => (storage_rows_by_id db id).map (fun p => (p.2.key, p.2.value)))
    (database_iter_file_order db)).flatten

/-- `Bitcask::foreach_key` from `src/bitcask.rs`: sticky-error check,
then the callback is applied to every keydir key.  The callback's
applications are represented by the sequence of keys visited, in order
(the callback itself has no effect on the store). -/
def bforeach_key (s : BitcaskState) : Res BitcaskError (List Bytes) :=
  match s.db.check_db_error with
  | .err e => .err e
  | .ok _ => .ok (s.keydir.map (fun p => p.1))

/-- `Bitcask::fold_key` from `src/bitcask.rs`: sticky-error check, then
the folding function is threaded over the keydir keys with the initial
accumulator; an error from the function propagates (`?`) and stops the
fold. -/
def bfold_key {T : Type} (s : BitcaskState)
    (f : Bytes → Option T → Res BitcaskError (Option T)) (init : Option T) :
    Res BitcaskError (Option T) :=
  match s.db.check_db_error with
  | .err e => .err e
  | .ok _ =>
    s.keydir.foldl
      (fun acc p =>
        match acc with
        | .err e => .err e
        | .ok a => f p.1 a)
      (.ok init)

/-- `Bitcask::foreach` from `src/bitcask.rs`: sticky-error check, then
the callback is applied to every key/value pair `Database::iter` yields.
The callback's applications are represented by the sequence of pairs
visited, in order. -/
def bforeach (s : BitcaskState) : Res BitcaskError (List (Bytes × Bytes)) :=
  match s.db.check_db_error with
  | .err e => .err e
  | .ok _ => .ok (database_iter_pairs s.db)

/-- `Bitcask::fold` from `src/bitcask.rs`: sticky-error check, then the
folding function is threaded over every key/value pair `Database::iter`
yields; an error from the function propagates (`?`) and stops the
fold. -/
def bfold {T : Type} (s : BitcaskState)
    (f : Bytes → Bytes → Option T → Res BitcaskError (Option T))
    (init : Option T) : Res BitcaskError (Option T) :=
  match s.db.check_db_error with
  | .err e => .err e
  | .ok _ =>
    (database_iter_pairs s.db).foldl
      (fun acc p =>
        match acc with
        | .err e => .err e
        | .ok a => f p.1 p.2 a)
      (.ok init)

/-! ### Invariants -/

/-- All elements pairwise distinct. -/
def allDistinct [DecidableEq α] : List α → Bool
  | [] => true
  | x :: xs => !xs.contains x && allDistinct xs

/-- Every stored row starts strictly below the append cursor (rows are
appended at the cursor, which then advances past them). -/
def offsetsOk (s : DataStorage) : Bool :=
  s.rows.all fun p => p.1 < s.write_offset

/-- Structural database invariant: the writable file is writable, file
ids never exceed the allocator's counter, the writable id is not among
the stable ids, stable ids are pairwise distinct, and the writable
file's offsets are consistent. -/
def stInv (db : Database) : Bool :=
  !db.writing_storage.readonly &&
  decide (db.writing_storage.file_id ≤ db.file_id_counter) &&
  db.stable_storages.all (fun s => decide (s.file_id ≤ db.file_id_counter)) &&
  db.stable_storages.all (fun s => s.file_id != db.writing_storage.file_id) &&
  allDistinct (db.stable_storages.map (fun s => s.file_id)) &&
  offsetsOk db.writing_storage

/-- Keydir keys pairwise distinct (hash-map semantics). -/
def kdKeysDistinct (kd : KeyDir) : Bool :=
  allDistinct (kd.map (fun p => p.1))

/-- The location resolves, in the given database, to the given value. -/
def ResolvesTo (db : Database) (loc : RowLocation) (v : Bytes) : Prop :=
  ∃ ts, db.read_value loc = .ok ⟨v, ts⟩

/-! ### Keydir lemmas -/

theorem KeyDir.get_nil (k : Bytes) : KeyDir.get [] k = none := rfl

theorem KeyDir.get_cons (p : Bytes × KeyDirEntry) (kd : KeyDir) (k : Bytes) :
    KeyDir.get (p :: kd) k = if p.1 = k then some p.2 else kd.get k := by
  by_cases h : p.1 = k
  · simp [KeyDir.get, List.find?, h]
  · simp only [KeyDir.get, List.find?]
    rw [show (p.1 == k) = false by simpa using h]
    simp [h]

theorem KeyDir.put_cons (p : Bytes × KeyDirEntry) (kd : KeyDir) (k : Bytes)
    (e : KeyDirEntry) :
    KeyDir.put (p :: kd) k e =
      if p.1 = k then (k, e) :: kd else p :: kd.put k e := by
  by_cases h : p.1 = k
  · simp [KeyDir.put, h]
  · rw [if_neg h]
    simp only [KeyDir.put]
    rw [if_neg (by simpa using h)]

theorem KeyDir.delete_cons (p : Bytes × KeyDirEntry) (kd : KeyDir) (k : Bytes) :
    KeyDir.delete (p :: kd) k =
      if p.1 = k then kd.delete k else p :: kd.delete k := by
  by_cases h : p.1 = k
  · simp [KeyDir.delete, List.filter, h]
  · simp [KeyDir.delete, List.filter, show (p.1 != k) = true by simpa using h, h]

theorem KeyDir.get_put_self (kd : KeyDir) (k : Bytes) (e : KeyDirEntry) :
    (kd.put k e).get k = some e := by
  induction kd with
  | nil => simp [KeyDir.put, KeyDir.get_cons, KeyDir.get_nil]
  | cons p rest ih =>
    rw [KeyDir.put_cons]
    by_cases h : p.1 = k
    · simp [h, KeyDir.get_cons]
    · simp [h, KeyDir.get_cons, ih]

theorem KeyDir.get_put_ne (kd : KeyDir) {k1 k : Bytes} (e : KeyDirEntry)
    (h : k1 ≠ k) : (kd.put k1 e).get k = kd.get k := by
  induction kd with
  | nil => simp [KeyDir.put, KeyDir.get_cons, KeyDir.get_nil, h]
  | cons p rest ih =>
    rw [KeyDir.put_cons]
    by_cases hp : p.1 = k1
    · have : p.1 ≠ k := by rw [hp]; exact h
      simp [hp, KeyDir.get_cons, h, this]
    · simp only [hp, if_false]
      rw [KeyDir.get_cons, KeyDir.get_cons, ih]

theorem KeyDir.get_delete_self (kd : KeyDir) (k : Bytes) :
    (kd.delete k).get k = none := by
  induction kd with
  | nil => simp [KeyDir.delete, KeyDir.get_nil]
  | cons p rest ih =>
    rw [KeyDir.delete_cons]
    by_cases h : p.1 = k
    · simp [h, ih]
    · simp [h, KeyDir.get_cons, ih]

theorem KeyDir.get_delete_ne (kd : KeyDir) {k1 k : Bytes}
    (h : k1 ≠ k) : (kd.delete k1).get k = kd.get k := by
  induction kd with
  | nil => simp [KeyDir.delete]
  | cons p rest ih =>
    rw [KeyDir.delete_cons]
    by_cases hp : p.1 = k1
    · have : p.1 ≠ k := by rw [hp]; exact h
      simp [hp, KeyDir.get_cons, this, ih, h]
    · simp [hp, KeyDir.get_cons, ih]

theorem KeyDir.get_append_of_some {kd1 : KeyDir} (kd2 : KeyDir) {k : Bytes}
    {e : KeyDirEntry} (h : kd1.get k = some e) : (kd1 ++ kd2).get k = some e := by
  induction kd1 with
  | nil => simp [KeyDir.get_nil] at h
  | cons p rest ih =>
    rw [KeyDir.get_cons] at h
    rw [List.cons_append, KeyDir.get_cons]
    by_cases hp : p.1 = k
    · simpa [hp] using h
    · rw [if_neg hp] at h ⊢
      exact ih h

theorem KeyDir.get_append_of_none {kd1 : KeyDir} (kd2 : KeyDir) {k : Bytes}
    (h : kd1.get k = none) : (kd1 ++ kd2).get k = kd2.get k := by
  induction kd1 with
  | nil => simp
  | cons p rest ih =>
    rw [KeyDir.get_cons] at h
    rw [List.cons_append, KeyDir.get_cons]
    by_cases hp : p.1 = k
    · simp [hp] at h
    · rw [if_neg hp] at h ⊢
      exact ih h

theorem KeyDir.get_checked_put_of_some {kd : KeyDir} {k k1 : Bytes}
    {e e1 : KeyDirEntry} (h : kd.get k = some e) :
    (kd.checked_put k1 e1).get k = some e := by
  unfold KeyDir.checked_put
  by_cases hc : kd.contains_key k1
  · simp [hc, h]
  · rw [if_neg hc]
    exact KeyDir.get_append_of_some _ h

theorem KeyDir.get_checked_put_self {kd : KeyDir} {k : Bytes}
    (e : KeyDirEntry) (h : kd.get k = none) :
    (kd.checked_put k e).get k = some e := by
  unfold KeyDir.checked_put
  have hc : kd.contains_key k = false := by
    simp [KeyDir.contains_key, h]
  rw [hc]
  simp only [Bool.false_eq_true, if_false]
  rw [KeyDir.get_append_of_none _ h]
  simp [KeyDir.get_cons, KeyDir.get_nil]

theorem KeyDir.get_checked_put_none_ne {kd : KeyDir} {k k1 : Bytes}
    (e1 : KeyDirEntry) (h : kd.get k = none) (hne : k1 ≠ k) :
    (kd.checked_put k1 e1).get k = none := by
  unfold KeyDir.checked_put
  by_cases hc : kd.contains_key k1
  · simp [hc, h]
  · rw [if_neg hc]
    rw [KeyDir.get_append_of_none _ h]
    simp [KeyDir.get_cons, KeyDir.get_nil, hne]

theorem KeyDir.get_none_of_not_mem {kd : KeyDir} {k : Bytes}
    (h : ∀ p ∈ kd, p.1 ≠ k) : kd.get k = none := by
  induction kd with
  | nil => simp [KeyDir.get_nil]
  | cons p rest ih =>
    rw [KeyDir.get_cons, if_neg (h p (by simp))]
    exact ih fun q hq => h q (by simp [hq])

theorem KeyDir.not_mem_of_get_none {kd : KeyDir} {k : Bytes}
    (h : kd.get k = none) : ∀ p ∈ kd, p.1 ≠ k := by
  induction kd with
  | nil => simp
  | cons p rest ih =>
    rw [KeyDir.get_cons] at h
    by_cases hp : p.1 = k
    · simp [hp] at h
    · rw [if_neg hp] at h
      intro q hq
      rcases List.mem_cons.mp hq with rfl | hq2
      · exact hp
      · exact ih h q hq2

theorem KeyDir.get_foldl_put_of_not_mem (l : List (Bytes × KeyDirEntry))
    (kd0 : KeyDir) {k : Bytes} (h : ∀ p ∈ l, p.1 ≠ k) :
    (l.foldl (fun kd p => kd.put p.1 p.2) kd0).get k = kd0.get k := by
  induction l generalizing kd0 with
  | nil => rfl
  | cons p rest ih =>
    rw [List.foldl_cons, ih _ fun q hq => h q (by simp [hq])]
    exact KeyDir.get_put_ne kd0 p.2 (h p (by simp))

theorem allDistinct_iff [DecidableEq α] (l : List α) :
    allDistinct l = true ↔ l.Nodup := by
  induction l with
  | nil => simp [allDistinct]
  | cons x xs ih => simp [allDistinct, List.nodup_cons, ih]

theorem KeyDir.get_foldl_put_of_get_some {l : List (Bytes × KeyDirEntry)}
    (kd0 : KeyDir) {k : Bytes} {e : KeyDirEntry}
    (h : KeyDir.get l k = some e) (hd : kdKeysDistinct l = true) :
    (l.foldl (fun kd p => kd.put p.1 p.2) kd0).get k = some e := by
  induction l generalizing kd0 with
  | nil => simp [KeyDir.get_nil] at h
  | cons p rest ih =>
    rw [KeyDir.get_cons] at h
    rw [kdKeysDistinct, allDistinct_iff, List.map_cons, List.nodup_cons] at hd
    have hd2 : kdKeysDistinct rest = true := by
      rw [kdKeysDistinct, allDistinct_iff]; exact hd.2
    by_cases hp : p.1 = k
    · rw [if_pos hp] at h
      cases h
      have hmem : ∀ q ∈ rest, q.1 ≠ k := by
        intro q hq hqk
        exact hd.1 (by rw [hp, ← hqk]; exact List.mem_map_of_mem _ hq)
      rw [List.foldl_cons, KeyDir.get_foldl_put_of_not_mem rest _ hmem, hp]
      exact KeyDir.get_put_self kd0 k p.2
    · rw [if_neg hp] at h
      rw [List.foldl_cons]
      exact ih (kd0.put p.1 p.2) h hd2

theorem kdKeysDistinct_checked_put {kd : KeyDir} (k : Bytes) (e : KeyDirEntry)
    (h : kdKeysDistinct kd = true) : kdKeysDistinct (kd.checked_put k e) = true := by
  unfold KeyDir.checked_put
  by_cases hc : kd.contains_key k
  · simp [hc, h]
  · rw [if_neg hc]
    have hget : kd.get k = none := by
      cases hg : kd.get k with
      | none => rfl
      | some e1 => exact absurd (by simp [KeyDir.contains_key, hg]) hc
    have hnm : k ∉ kd.map (fun p => p.1) := by
      intro hmem
      rcases List.mem_map.mp hmem with ⟨q, hq, hqk⟩
      exact KeyDir.not_mem_of_get_none hget q hq hqk
    rw [kdKeysDistinct, allDistinct_iff] at h ⊢
    rw [List.map_append]
    simp only [List.map_cons, List.map_nil]
    rw [List.nodup_append]
    exact ⟨h, List.nodup_singleton k, by
      intro a ha hb
      rw [List.mem_singleton] at hb
      rw [hb] at ha
      exact hnm ha⟩

theorem keys_subset_checked_put {kd : KeyDir} {k a : Bytes} {e : KeyDirEntry}
    (h : a ∈ (kd.checked_put k e).map (fun p => p.1)) :
    a ∈ kd.map (fun p => p.1) ∨ a = k := by
  unfold KeyDir.checked_put at h
  by_cases hc : kd.contains_key k
  · rw [if_pos hc] at h
    exact Or.inl h
  · rw [if_neg hc] at h
    simp only [List.map_append, List.mem_append, List.map_cons, List.map_nil,
      List.mem_singleton] at h
    rcases h with h | h
    · exact Or.inl h
    · exact Or.inr h

/-! ### Storage lemmas -/

theorem Row.size_pos (r : Row) : 0 < r.size := by
  unfold Row.size DATA_FILE_KEY_OFFSET
  omega

theorem DataStorage.file_size_append (s : DataStorage) (o : Nat) (r : Row) :
    DataStorage.file_size { s with rows := s.rows ++ [(o, r)] } =
      s.file_size + r.size := by
  simp [DataStorage.file_size]

theorem DataStorage.write_offset_append (s : DataStorage) (o : Nat) (r : Row) :
    DataStorage.write_offset { s with rows := s.rows ++ [(o, r)] } =
      s.write_offset + r.size := by
  simp [DataStorage.write_offset, DataStorage.file_size_append]
  omega

theorem offsetsOk_append {s : DataStorage} (r : Row) (h : offsetsOk s = true) :
    offsetsOk { s with rows := s.rows ++ [(s.write_offset, r)] } = true := by
  simp only [offsetsOk, List.all_eq_true] at h ⊢
  intro p hp
  rw [DataStorage.write_offset_append]
  rcases List.mem_append.mp hp with hp2 | hp2
  · have := h p hp2
    have hpos := Row.size_pos r
    simp only [decide_eq_true_eq] at this ⊢
    omega
  · simp only [List.mem_singleton] at hp2
    subst hp2
    have hpos := Row.size_pos r
    simp only [decide_eq_true_eq]
    omega

theorem DataStorage.read_value_append {s : DataStorage} {off sz : Nat}
    {tv : TimedValue} (x : Nat × Row)
    (h : s.read_value off sz = .ok tv) :
    DataStorage.read_value { s with rows := s.rows ++ [x] } off sz = .ok tv := by
  unfold DataStorage.read_value at h ⊢
  cases hf : s.rows.find? (fun p => p.1 == off) with
  | none => rw [hf] at h; cases h
  | some p =>
    rw [hf] at h
    simp only [List.find?_append, hf, Option.some_orElse]
    exact h

theorem DataStorage.read_value_last (s : DataStorage) (r : Row) (sz : Nat)
    (hofs : offsetsOk s = true) :
    DataStorage.read_value { s with rows := s.rows ++ [(s.write_offset, r)] }
      s.write_offset sz = .ok ⟨r.value, r.timestamp⟩ := by
  unfold DataStorage.read_value
  have hnone : s.rows.find? (fun p => p.1 == s.write_offset) = none := by
    rw [List.find?_eq_none]
    intro p hp
    simp only [offsetsOk, List.all_eq_true] at hofs
    have := hofs p hp
    simp only [decide_eq_true_eq] at this
    simp only [beq_iff_eq]
    omega
  simp only [List.find?_append, hnone, Option.none_orElse, List.find?,
    beq_self_eq_true, Option.none_or]

theorem DataStorage.write_row_ok {max : Nat} {s s1 : DataStorage} {r : Row}
    {loc : RowLocation}
    (h : s.write_row max r = .ok (loc, s1)) :
    s.readonly = false ∧ s.write_offset + r.size ≤ max ∧
      loc = ⟨s.file_id, s.write_offset, r.size⟩ ∧
      s1 = { s with rows := s.rows ++ [(s.write_offset, r)] } := by
  unfold DataStorage.write_row at h
  by_cases h1 : s.readonly
  · rw [if_pos h1] at h; cases h
  · rw [if_neg h1] at h
    by_cases h2 : s.write_offset + r.size > max
    · rw [if_pos h2] at h; cases h
    · rw [if_neg h2] at h
      cases h
      exact ⟨by simpa using h1, by omega, rfl, rfl⟩

theorem DataStorage.write_row_ok_of (max : Nat) (s : DataStorage) (r : Row)
    (h1 : s.readonly = false) (h2 : s.write_offset + r.size ≤ max) :
    s.write_row max r = .ok (⟨s.file_id, s.write_offset, r.size⟩,
      { s with rows := s.rows ++ [(s.write_offset, r)] }) := by
  unfold DataStorage.write_row
  rw [if_neg (by simp [h1]), if_neg (by omega)]

theorem DataStorage.write_row_overflow {max : Nat} {s : DataStorage} {r : Row}
    (h1 : s.readonly = false) (h2 : s.write_offset + r.size > max) :
    s.write_row max r = .err .storageOverflow := by
  unfold DataStorage.write_row
  rw [if_neg (by simp [h1]), if_pos h2]

/-! ### Database lemmas -/

theorem stInv_iff (db : Database) : stInv db = true ↔
    (db.writing_storage.readonly = false ∧
     db.writing_storage.file_id ≤ db.file_id_counter ∧
     (∀ s ∈ db.stable_storages, s.file_id ≤ db.file_id_counter) ∧
     (∀ s ∈ db.stable_storages, s.file_id ≠ db.writing_storage.file_id) ∧
     (db.stable_storages.map (fun s => s.file_id)).Nodup ∧
     offsetsOk db.writing_storage = true) := by
  simp only [stInv, Bool.and_eq_true, Bool.not_eq_true', List.all_eq_true,
    decide_eq_true_eq, bne_iff_ne, allDistinct_iff]
  tauto

theorem Database.do_flush_error (db : Database) :
    (db.do_flush_writing_file).is_error = db.is_error := by
  unfold Database.do_flush_writing_file
  split <;> rfl

theorem Database.do_flush_counter_le (db : Database) :
    db.file_id_counter ≤ (db.do_flush_writing_file).file_id_counter := by
  unfold Database.do_flush_writing_file
  split
  · exact Nat.le_refl _
  · exact Nat.le_succ _

theorem Database.do_flush_stInv {db : Database} (h : stInv db = true) :
    stInv db.do_flush_writing_file = true := by
  rw [stInv_iff] at h
  obtain ⟨h1, h2, h3, h4, h5, h6⟩ := h
  unfold Database.do_flush_writing_file
  by_cases hz : db.writing_storage.file_size == 0
  · rw [if_pos hz]
    rw [stInv_iff]
    exact ⟨h1, h2, h3, h4, h5, h6⟩
  · rw [if_neg hz]
    rw [stInv_iff]
    refine ⟨rfl, Nat.le_refl _, ?_, ?_, ?_, by simp [offsetsOk, DataStorage.new]⟩
    · intro s hs
      rcases List.mem_append.mp hs with hs2 | hs2
      · exact Nat.le_succ_of_le (h3 s hs2)
      · simp only [List.mem_singleton] at hs2
        subst hs2
        exact Nat.le_succ_of_le h2
    · intro s hs
      rcases List.mem_append.mp hs with hs2 | hs2
      · have := h3 s hs2
        simp only [DataStorage.new]
        omega
      · simp only [List.mem_singleton] at hs2
        subst hs2
        simp only [DataStorage.transit_to_readonly, DataStorage.new]
        omega
    · rw [List.map_append]
      rw [List.nodup_append]
      refine ⟨h5, List.nodup_singleton _, ?_⟩
      intro a ha hb
      simp only [List.map_cons, List.map_nil, List.mem_singleton,
        DataStorage.transit_to_readonly] at hb
      subst hb
      rcases List.mem_map.mp ha with ⟨s, hs, hsa⟩
      exact h4 s hs hsa

theorem Database.do_flush_resolve {db : Database} {loc : RowLocation} {v : Bytes}
    (h : stInv db = true) (hr : ResolvesTo db loc v) :
    ResolvesTo db.do_flush_writing_file loc v := by
  rw [stInv_iff] at h
  obtain ⟨h1, h2, h3, h4, h5, h6⟩ := h
  obtain ⟨ts, hts⟩ := hr
  unfold Database.do_flush_writing_file
  by_cases hz : db.writing_storage.file_size == 0
  · rw [if_pos hz]
    exact ⟨ts, hts⟩
  · rw [if_neg hz]
    refine ⟨ts, ?_⟩
    by_cases hw : loc.file_id = db.writing_storage.file_id
    · simp only [Database.read_value, hw, beq_self_eq_true, if_true] at hts
      have hlt : loc.file_id ≤ db.file_id_counter := by rw [hw]; exact h2
      simp only [Database.read_value, DataStorage.new]
      rw [if_neg (by simp; omega)]
      have hnone : db.stable_storages.find?
          (fun s => s.file_id == loc.file_id) = none := by
        rw [List.find?_eq_none]
        intro s hs
        simp only [beq_iff_eq]
        rw [hw]
        exact h4 s hs
      rw [List.find?_append, hnone, Option.none_or]
      simp only [List.find?, DataStorage.transit_to_readonly]
      rw [show (db.writing_storage.file_id == loc.file_id) = true by
        simp [hw]]
      cases hrv : db.writing_storage.read_value loc.row_offset loc.row_size with
      | ok tv =>
        rw [hrv] at hts
        unfold DataStorage.read_value at hrv
        simp only [DataStorage.read_value]
        rw [hrv]
        simpa using hts
      | err e => rw [hrv] at hts; cases hts
    · simp only [Database.read_value] at hts
      rw [if_neg (by simpa using hw)] at hts
      cases hf : db.stable_storages.find? (fun s => s.file_id == loc.file_id) with
      | none => rw [hf] at hts; cases hts
      | some f =>
        rw [hf] at hts
        have hfm := List.mem_of_find?_eq_some hf
        have hfle : f.file_id = loc.file_id := by
          have := List.find?_some hf
          simpa using this
        have hle : loc.file_id ≤ db.file_id_counter := by
          rw [← hfle]; exact h3 f hfm
        simp only [Database.read_value, DataStorage.new]
        rw [if_neg (by simp; omega)]
        rw [List.find?_append, hf]
        exact hts

theorem DataStorage.new_write_offset (id : Nat) :
    (DataStorage.new id).write_offset = FILE_HEADER_SIZE := by
  simp [DataStorage.new, DataStorage.write_offset, DataStorage.file_size]

theorem DataStorage.write_offset_ge (s : DataStorage) :
    FILE_HEADER_SIZE ≤ s.write_offset :=
  Nat.le_add_right _ _

theorem Database.resolve_append_writing {db : Database} {loc : RowLocation}
    {v : Bytes} (x : Nat × Row) (hr : ResolvesTo db loc v) :
    ResolvesTo { db with writing_storage :=
      { db.writing_storage with rows := db.writing_storage.rows ++ [x] } } loc v := by
  obtain ⟨ts, hts⟩ := hr
  refine ⟨ts, ?_⟩
  by_cases hw : loc.file_id = db.writing_storage.file_id
  · simp only [Database.read_value, hw, beq_self_eq_true, if_true] at hts ⊢
    cases hrv : db.writing_storage.read_value loc.row_offset loc.row_size with
    | ok tv =>
      rw [hrv] at hts
      rw [DataStorage.read_value_append x hrv]
      exact hts
    | err e => rw [hrv] at hts; cases hts
  · simp only [Database.read_value] at hts ⊢
    rw [if_neg (by simpa using hw)] at hts ⊢
    exact hts

theorem Database.write_resolve {opts : DatabaseOptions} {db db1 : Database}
    {row : Row} {loc1 : RowLocation} {loc : RowLocation} {v : Bytes}
    (hinv : stInv db = true)
    (hok : Database.write opts db row = .ok (loc1, db1))
    (hr : ResolvesTo db loc v) : ResolvesTo db1 loc v := by
  unfold Database.write at hok
  cases hw1 : db.writing_storage.write_row opts.max_data_file_size row with
  | ok p =>
    rw [hw1] at hok
    simp only at hok
    cases hok
    obtain ⟨hro, hle, hloc, hs1⟩ := DataStorage.write_row_ok hw1
    rw [hs1]
    exact Database.resolve_append_writing _ hr
  | err e =>
    rw [hw1] at hok
    cases e with
    | storageOverflow =>
      simp only at hok
      have hr2 := Database.do_flush_resolve hinv hr
      cases hw2 : (db.do_flush_writing_file).writing_storage.write_row
          opts.max_data_file_size row with
      | ok p =>
        rw [hw2] at hok
        simp only at hok
        cases hok
        obtain ⟨hro, hle, hloc, hs1⟩ := DataStorage.write_row_ok hw2
        rw [hs1]
        exact Database.resolve_append_writing _ hr2
      | err e2 => rw [hw2] at hok; cases hok
    | permissionDenied => simp only at hok; cases hok
    | readRowFailed => simp only at hok; cases hok

theorem Database.write_new {opts : DatabaseOptions} {db db1 : Database}
    {row : Row} {loc1 : RowLocation}
    (hinv : stInv db = true)
    (hok : Database.write opts db row = .ok (loc1, db1)) :
    db1.read_value loc1 = .ok ⟨row.value, row.timestamp⟩ := by
  unfold Database.write at hok
  cases hw1 : db.writing_storage.write_row opts.max_data_file_size row with
  | ok p =>
    rw [hw1] at hok
    simp only at hok
    cases hok
    obtain ⟨hro, hle, hloc, hs1⟩ := DataStorage.write_row_ok hw1
    rw [hloc, hs1]
    have hofs := ((stInv_iff db).mp hinv).2.2.2.2.2
    simp only [Database.read_value, beq_self_eq_true, if_true]
    rw [DataStorage.read_value_last _ _ _ hofs]
  | err e =>
    rw [hw1] at hok
    cases e with
    | storageOverflow =>
      simp only at hok
      have hinv2 := Database.do_flush_stInv hinv
      cases hw2 : (db.do_flush_writing_file).writing_storage.write_row
          opts.max_data_file_size row with
      | ok p =>
        rw [hw2] at hok
        simp only at hok
        cases hok
        obtain ⟨hro, hle, hloc, hs1⟩ := DataStorage.write_row_ok hw2
        rw [hloc, hs1]
        have hofs := ((stInv_iff _).mp hinv2).2.2.2.2.2
        simp only [Database.read_value, beq_self_eq_true, if_true]
        rw [DataStorage.read_value_last _ _ _ hofs]
      | err e2 => rw [hw2] at hok; cases hok
    | permissionDenied => simp only at hok; cases hok
    | readRowFailed => simp only at hok; cases hok

theorem stInv_append_writing {db : Database} {r : Row}
    (hinv : stInv db = true) :
    stInv { db with writing_storage := { db.writing_storage with
      rows := db.writing_storage.rows ++ [(db.writing_storage.write_offset, r)] } }
      = true := by
  rw [stInv_iff] at hinv ⊢
  obtain ⟨h1, h2, h3, h4, h5, h6⟩ := hinv
  exact ⟨h1, h2, h3, h4, h5, offsetsOk_append r h6⟩

theorem Database.write_stInv {opts : DatabaseOptions} {db db1 : Database}
    {row : Row} {loc1 : RowLocation}
    (hinv : stInv db = true)
    (hok : Database.write opts db row = .ok (loc1, db1)) :
    stInv db1 = true := by
  unfold Database.write at hok
  cases hw1 : db.writing_storage.write_row opts.max_data_file_size row with
  | ok p =>
    rw [hw1] at hok
    simp only at hok
    cases hok
    obtain ⟨hro, hle, hloc, hs1⟩ := DataStorage.write_row_ok hw1
    rw [hs1]
    exact stInv_append_writing hinv
  | err e =>
    rw [hw1] at hok
    cases e with
    | storageOverflow =>
      simp only at hok
      have hinv2 := Database.do_flush_stInv hinv
      cases hw2 : (db.do_flush_writing_file).writing_storage.write_row
          opts.max_data_file_size row with
      | ok p =>
        rw [hw2] at hok
        simp only at hok
        cases hok
        obtain ⟨hro, hle, hloc, hs1⟩ := DataStorage.write_row_ok hw2
        rw [hs1]
        exact stInv_append_writing hinv2
      | err e2 => rw [hw2] at hok; cases hok
    | permissionDenied => simp only at hok; cases hok
    | readRowFailed => simp only at hok; cases hok

theorem Database.write_is_error {opts : DatabaseOptions} {db db1 : Database}
    {row : Row} {loc1 : RowLocation}
    (hok : Database.write opts db row = .ok (loc1, db1)) :
    db1.is_error = db.is_error := by
  unfold Database.write at hok
  cases hw1 : db.writing_storage.write_row opts.max_data_file_size row with
  | ok p =>
    rw [hw1] at hok
    simp only at hok
    cases hok
    rfl
  | err e =>
    rw [hw1] at hok
    cases e with
    | storageOverflow =>
      simp only at hok
      cases hw2 : (db.do_flush_writing_file).writing_storage.write_row
          opts.max_data_file_size row with
      | ok p =>
        rw [hw2] at hok
        simp only at hok
        cases hok
        rw [show ({ db.do_flush_writing_file with
          writing_storage := p.2 } : Database).is_error =
          (db.do_flush_writing_file).is_error from rfl]
        exact Database.do_flush_error db
      | err e2 => rw [hw2] at hok; cases hok
    | permissionDenied => simp only at hok; cases hok
    | readRowFailed => simp only at hok; cases hok

theorem Database.write_fits {opts : DatabaseOptions} {db db1 : Database}
    {row : Row} {loc1 : RowLocation}
    (hok : Database.write opts db row = .ok (loc1, db1)) :
    FILE_HEADER_SIZE + row.size ≤ opts.max_data_file_size := by
  unfold Database.write at hok
  cases hw1 : db.writing_storage.write_row opts.max_data_file_size row with
  | ok p =>
    obtain ⟨hro, hle, hloc, hs1⟩ := DataStorage.write_row_ok hw1
    have := DataStorage.write_offset_ge db.writing_storage
    omega
  | err e =>
    rw [hw1] at hok
    cases e with
    | storageOverflow =>
      simp only at hok
      cases hw2 : (db.do_flush_writing_file).writing_storage.write_row
          opts.max_data_file_size row with
      | ok p =>
        obtain ⟨hro, hle, hloc, hs1⟩ := DataStorage.write_row_ok hw2
        have := DataStorage.write_offset_ge
          (db.do_flush_writing_file).writing_storage
        omega
      | err e2 => rw [hw2] at hok; cases hok
    | permissionDenied => simp only at hok; cases hok
    | readRowFailed => simp only at hok; cases hok

theorem Database.write_total {opts : DatabaseOptions} {db : Database} (row : Row)
    (hinv : stInv db = true)
    (hfit : FILE_HEADER_SIZE + row.size ≤ opts.max_data_file_size) :
    ∃ loc1 db1, Database.write opts db row = .ok (loc1, db1) := by
  have h1 : db.writing_storage.readonly = false := ((stInv_iff db).mp hinv).1
  unfold Database.write
  by_cases hov : db.writing_storage.write_offset + row.size >
      opts.max_data_file_size
  · rw [DataStorage.write_row_overflow h1 hov]
    have hfs : ¬ db.writing_storage.file_size == 0 := by
      have : db.writing_storage.write_offset =
          FILE_HEADER_SIZE + db.writing_storage.file_size := rfl
      simp only [beq_iff_eq]
      omega
    have hflush : (db.do_flush_writing_file).writing_storage =
        DataStorage.new (db.file_id_counter + 1) := by
      unfold Database.do_flush_writing_file
      rw [if_neg hfs]
    simp only
    rw [hflush]
    rw [DataStorage.write_row_ok_of _ _ _ rfl
      (by rw [DataStorage.new_write_offset]; omega)]
    exact ⟨_, _, rfl⟩
  · rw [DataStorage.write_row_ok_of _ _ _ h1 (by omega)]
    exact ⟨_, _, rfl⟩

/-! ### Merge-loop lemmas -/

theorem stInv_openEmpty (c : Nat) : stInv (Database.openEmpty c) = true := by
  rw [stInv_iff]
  simp [Database.openEmpty, DataStorage.new, offsetsOk]

theorem write_merged_loop_stInv {opts : DatabaseOptions} {mainDb : Database}
    {entries : List (Bytes × KeyDirEntry)} {mdb mdb1 : Database} {acc acc1 : KeyDir}
    (hok : write_merged_loop opts mainDb entries mdb acc = .ok (mdb1, acc1))
    (hinv : stInv mdb = true) : stInv mdb1 = true := by
  induction entries generalizing mdb acc with
  | nil =>
    unfold write_merged_loop at hok
    cases hok
    exact hinv
  | cons p rest ih =>
    unfold write_merged_loop at hok
    cases hread : mainDb.read_value p.2.loc with
    | err e1 => rw [hread] at hok; cases hok
    | ok tv =>
      rw [hread] at hok
      simp only at hok
      by_cases htomb : is_tombstone tv.value
      · rw [if_pos htomb] at hok
        exact ih hok hinv
      · rw [if_neg htomb] at hok
        cases hwrite : Database.write opts mdb ⟨p.2.tstmp, p.1, tv.value⟩ with
        | err e1 => rw [hwrite] at hok; cases hok
        | ok q =>
          rw [hwrite] at hok
          simp only at hok
          exact ih hok (Database.write_stInv hinv hwrite)

theorem write_merged_loop_preserve {opts : DatabaseOptions} {mainDb : Database}
    {entries : List (Bytes × KeyDirEntry)} {mdb mdb1 : Database} {acc acc1 : KeyDir}
    (hok : write_merged_loop opts mainDb entries mdb acc = .ok (mdb1, acc1))
    (hinv : stInv mdb = true)
    {k : Bytes} {e : KeyDirEntry} {v : Bytes}
    (hacc : acc.get k = some e) (hres : ResolvesTo mdb e.loc v) :
    acc1.get k = some e ∧ ResolvesTo mdb1 e.loc v := by
  induction entries generalizing mdb acc with
  | nil =>
    unfold write_merged_loop at hok
    cases hok
    exact ⟨hacc, hres⟩
  | cons p rest ih =>
    unfold write_merged_loop at hok
    cases hread : mainDb.read_value p.2.loc with
    | err e1 => rw [hread] at hok; cases hok
    | ok tv =>
      rw [hread] at hok
      simp only at hok
      by_cases htomb : is_tombstone tv.value
      · rw [if_pos htomb] at hok
        exact ih hok hinv hacc hres
      · rw [if_neg htomb] at hok
        cases hwrite : Database.write opts mdb ⟨p.2.tstmp, p.1, tv.value⟩ with
        | err e1 => rw [hwrite] at hok; cases hok
        | ok q =>
          rw [hwrite] at hok
          simp only at hok
          exact ih hok (Database.write_stInv hinv hwrite)
            (KeyDir.get_checked_put_of_some hacc)
            (Database.write_resolve hinv hwrite hres)

theorem write_merged_loop_first {opts : DatabaseOptions} {mainDb : Database}
    {entries : List (Bytes × KeyDirEntry)} {mdb mdb1 : Database} {acc acc1 : KeyDir}
    (hok : write_merged_loop opts mainDb entries mdb acc = .ok (mdb1, acc1))
    (hinv : stInv mdb = true)
    {k : Bytes} {e0 : KeyDirEntry} {v : Bytes} {ts0 : Nat}
    (hent : KeyDir.get entries k = some e0)
    (hacc : acc.get k = none)
    (hread0 : mainDb.read_value e0.loc = .ok ⟨v, ts0⟩)
    (hv : is_tombstone v = false) :
    ∃ l, acc1.get k = some ⟨l, e0.tstmp⟩ ∧ ResolvesTo mdb1 l v := by
  induction entries generalizing mdb acc with
  | nil => simp [KeyDir.get_nil] at hent
  | cons p rest ih =>
    rw [KeyDir.get_cons] at hent
    unfold write_merged_loop at hok
    cases hread : mainDb.read_value p.2.loc with
    | err e1 => rw [hread] at hok; cases hok
    | ok tv =>
      rw [hread] at hok
      simp only at hok
      by_cases hp : p.1 = k
      · rw [if_pos hp] at hent
        have he2 : p.2 = e0 := by injection hent
        subst he2
        rw [hread] at hread0
        have htv : tv = ⟨v, ts0⟩ := by injection hread0
        subst htv
        rw [if_neg (by simpa using hv)] at hok
        cases hwrite : Database.write opts mdb ⟨p.2.tstmp, p.1, v⟩ with
        | err e1 => rw [hwrite] at hok; cases hok
        | ok q =>
          rw [hwrite] at hok
          simp only at hok
          have hget2 : (acc.checked_put p.1 ⟨q.1, p.2.tstmp⟩).get k =
              some ⟨q.1, p.2.tstmp⟩ := by
            rw [← hp] at hacc
            rw [show k = p.1 from hp.symm]
            exact KeyDir.get_checked_put_self _ hacc
          have hwrite2 : Database.write opts mdb ⟨p.2.tstmp, p.1, v⟩ =
              .ok (q.1, q.2) := hwrite
          have hres2 : ResolvesTo q.2 q.1 v :=
            ⟨p.2.tstmp, Database.write_new hinv hwrite2⟩
          obtain ⟨hga, hra⟩ := write_merged_loop_preserve hok
            (Database.write_stInv hinv hwrite) hget2 hres2
          exact ⟨q.1, hga, hra⟩
      · rw [if_neg hp] at hent
        by_cases htomb : is_tombstone tv.value
        · rw [if_pos htomb] at hok
          exact ih hok hinv hent hacc
        · rw [if_neg htomb] at hok
          cases hwrite : Database.write opts mdb ⟨p.2.tstmp, p.1, tv.value⟩ with
          | err e1 => rw [hwrite] at hok; cases hok
          | ok q =>
            rw [hwrite] at hok
            simp only at hok
            exact ih hok (Database.write_stInv hinv hwrite) hent
              (KeyDir.get_checked_put_none_ne _ hacc hp)

theorem write_merged_loop_get_none {opts : DatabaseOptions} {mainDb : Database}
    {entries : List (Bytes × KeyDirEntry)} {mdb mdb1 : Database} {acc acc1 : KeyDir}
    (hok : write_merged_loop opts mainDb entries mdb acc = .ok (mdb1, acc1))
    {k : Bytes}
    (hne : ∀ p ∈ entries, p.1 ≠ k)
    (hacc : acc.get k = none) : acc1.get k = none := by
  induction entries generalizing mdb acc with
  | nil =>
    unfold write_merged_loop at hok
    cases hok
    exact hacc
  | cons p rest ih =>
    unfold write_merged_loop at hok
    cases hread : mainDb.read_value p.2.loc with
    | err e1 => rw [hread] at hok; cases hok
    | ok tv =>
      rw [hread] at hok
      simp only at hok
      by_cases htomb : is_tombstone tv.value
      · rw [if_pos htomb] at hok
        exact ih hok (fun q hq => hne q (by simp [hq])) hacc
      · rw [if_neg htomb] at hok
        cases hwrite : Database.write opts mdb ⟨p.2.tstmp, p.1, tv.value⟩ with
        | err e1 => rw [hwrite] at hok; cases hok
        | ok q =>
          rw [hwrite] at hok
          simp only at hok
          exact ih hok (fun q1 hq1 => hne q1 (by simp [hq1]))
            (KeyDir.get_checked_put_none_ne _ hacc (hne p (by simp)))

theorem write_merged_loop_distinct {opts : DatabaseOptions} {mainDb : Database}
    {entries : List (Bytes × KeyDirEntry)} {mdb mdb1 : Database} {acc acc1 : KeyDir}
    (hok : write_merged_loop opts mainDb entries mdb acc = .ok (mdb1, acc1))
    (hd : kdKeysDistinct acc = true) : kdKeysDistinct acc1 = true := by
  induction entries generalizing mdb acc with
  | nil =>
    unfold write_merged_loop at hok
    cases hok
    exact hd
  | cons p rest ih =>
    unfold write_merged_loop at hok
    cases hread : mainDb.read_value p.2.loc with
    | err e1 => rw [hread] at hok; cases hok
    | ok tv =>
      rw [hread] at hok
      simp only at hok
      by_cases htomb : is_tombstone tv.value
      · rw [if_pos htomb] at hok
        exact ih hok hd
      · rw [if_neg htomb] at hok
        cases hwrite : Database.write opts mdb ⟨p.2.tstmp, p.1, tv.value⟩ with
        | err e1 => rw [hwrite] at hok; cases hok
        | ok q =>
          rw [hwrite] at hok
          simp only at hok
          exact ih hok (kdKeysDistinct_checked_put _ _ hd)

theorem write_merged_loop_total {opts : DatabaseOptions} {mainDb : Database}
    (entries : List (Bytes × KeyDirEntry)) (mdb : Database) (acc : KeyDir)
    (hinv : stInv mdb = true)
    (hgood : ∀ p ∈ entries, ∃ tv, mainDb.read_value p.2.loc = .ok tv ∧
      (is_tombstone tv.value = false →
        FILE_HEADER_SIZE + DATA_FILE_KEY_OFFSET + p.1.length + tv.value.length ≤
          opts.max_data_file_size)) :
    ∃ mdb1 acc1, write_merged_loop opts mainDb entries mdb acc = .ok (mdb1, acc1) := by
  induction entries generalizing mdb acc with
  | nil => exact ⟨mdb, acc, rfl⟩
  | cons p rest ih =>
    obtain ⟨tv, hread, hfit⟩ := hgood p (by simp)
    unfold write_merged_loop
    rw [hread]
    simp only
    by_cases htomb : is_tombstone tv.value
    · rw [if_pos htomb]
      exact ih mdb acc hinv fun q hq => hgood q (by simp [hq])
    · rw [if_neg htomb]
      have hfit2 : FILE_HEADER_SIZE + Row.size ⟨p.2.tstmp, p.1, tv.value⟩ ≤
          opts.max_data_file_size := by
        have := hfit (by simpa using htomb)
        simp only [Row.size]
        omega
      obtain ⟨loc1, mdb2, hwrite⟩ := Database.write_total _ hinv hfit2
      rw [hwrite]
      simp only
      exact ih mdb2 _ (Database.write_stInv hinv hwrite)
        fun q hq => hgood q (by simp [hq])

/-! ### Facade step lemmas -/

theorem is_tombstone_false_iff (v : Bytes) :
    is_tombstone v = false ↔ v ≠ tombstoneValue := by
  simp [is_tombstone]

/-- The tracked fact behind read-your-writes: no sticky error, the
structural invariant, and a keydir entry for `k` resolving to `v`. -/
def TracksValue (s : BitcaskState) (k v : Bytes) : Prop :=
  s.db.is_error = none ∧ stInv s.db = true ∧
  ∃ e, s.keydir.get k = some e ∧ ResolvesTo s.db e.loc v

theorem check_db_error_ok {db : Database} (h : db.is_error = none) :
    db.check_db_error = .ok () := by
  simp [Database.check_db_error, h]

theorem bget_of_tracks {s : BitcaskState} {k v : Bytes}
    (ht : TracksValue s k v) (hv : is_tombstone v = false) :
    bget s k = .ok (some v) := by
  obtain ⟨herr, hinv, e, hget, ts, hres⟩ := ht
  unfold bget
  rw [check_db_error_ok herr]
  simp only
  rw [hget]
  simp only
  rw [hres]
  simp only [hv]
  rfl

theorem tracks_of_put {opts : BitcaskOptions} {s s1 : BitcaskState}
    {k v : Bytes}
    (hinv : stInv s.db = true)
    (hput : bput opts s k v = (.ok (), s1)) : TracksValue s1 k v := by
  unfold bput at hput
  by_cases h1 : k.length > opts.max_key_size
  · rw [if_pos h1] at hput
    injection hput with ha hb
    cases ha
  · rw [if_neg h1] at hput
    by_cases h2 : v.length > opts.max_value_size
    · rw [if_pos h2] at hput
      injection hput with ha hb
      cases ha
    · rw [if_neg h2] at hput
      cases herr : s.db.is_error with
      | some m =>
        rw [show s.db.check_db_error = .err (.databaseBroken m) by
          simp [Database.check_db_error, herr]] at hput
        injection hput with ha hb
        cases ha
      | none =>
        rw [check_db_error_ok herr] at hput
        simp only at hput
        cases hwr : Database.write opts.get_database_options s.db
            ⟨s.clock, k, v⟩ with
        | err e =>
          rw [hwr] at hput
          injection hput with ha hb
          cases ha
        | ok q =>
          rw [hwr] at hput
          simp only at hput
          injection hput with ha hb
          subst hb
          have hwr2 : Database.write opts.get_database_options s.db
              ⟨s.clock, k, v⟩ = .ok (q.1, q.2) := hwr
          refine ⟨?_, Database.write_stInv hinv hwr2, ⟨q.1, s.clock⟩, ?_, ?_⟩
          · show q.2.is_error = none
            rw [Database.write_is_error hwr2]
            exact herr
          · exact KeyDir.get_put_self s.keydir k ⟨q.1, s.clock⟩
          · exact ⟨s.clock, Database.write_new hinv hwr2⟩

theorem tracks_step_put {opts : BitcaskOptions} {s s1 : BitcaskState}
    {k v k1 v1 : Bytes}
    (hput : bput opts s k1 v1 = (.ok (), s1)) (hne : k1 ≠ k)
    (ht : TracksValue s k v) : TracksValue s1 k v := by
  obtain ⟨herr, hinv, e, hget, hres⟩ := ht
  unfold bput at hput
  by_cases h1 : k1.length > opts.max_key_size
  · rw [if_pos h1] at hput
    injection hput with ha hb
    cases ha
  · rw [if_neg h1] at hput
    by_cases h2 : v1.length > opts.max_value_size
    · rw [if_pos h2] at hput
      injection hput with ha hb
      cases ha
    · rw [if_neg h2] at hput
      rw [check_db_error_ok herr] at hput
      simp only at hput
      cases hwr : Database.write opts.get_database_options s.db
          ⟨s.clock, k1, v1⟩ with
      | err e1 =>
        rw [hwr] at hput
        injection hput with ha hb
        cases ha
      | ok q =>
        rw [hwr] at hput
        simp only at hput
        injection hput with ha hb
        subst hb
        have hwr2 : Database.write opts.get_database_options s.db
            ⟨s.clock, k1, v1⟩ = .ok (q.1, q.2) := hwr
        refine ⟨?_, Database.write_stInv hinv hwr2, e, ?_, ?_⟩
        · show q.2.is_error = none
          rw [Database.write_is_error hwr2]
          exact herr
        · show (s.keydir.put k1 ⟨q.1, s.clock⟩).get k = some e
          rw [KeyDir.get_put_ne s.keydir _ hne]
          exact hget
        · exact Database.write_resolve hinv hwr2 hres

theorem tracks_step_del {opts : BitcaskOptions} {s s1 : BitcaskState}
    {k v k1 : Bytes}
    (hdel : bdelete opts s k1 = (.ok (), s1)) (hne : k1 ≠ k)
    (ht : TracksValue s k v) : TracksValue s1 k v := by
  obtain ⟨herr, hinv, e, hget, hres⟩ := ht
  unfold bdelete at hdel
  rw [check_db_error_ok herr] at hdel
  simp only at hdel
  by_cases hc : s.keydir.contains_key k1
  · rw [if_pos hc] at hdel
    cases hwr : Database.write opts.get_database_options s.db
        ⟨s.clock, k1, tombstoneValue⟩ with
    | err e1 =>
      rw [hwr] at hdel
      injection hdel with ha hb
      cases ha
    | ok q =>
      rw [hwr] at hdel
      simp only at hdel
      injection hdel with ha hb
      subst hb
      have hwr2 : Database.write opts.get_database_options s.db
          ⟨s.clock, k1, tombstoneValue⟩ = .ok (q.1, q.2) := hwr
      refine ⟨?_, Database.write_stInv hinv hwr2, e, ?_, ?_⟩
      · show q.2.is_error = none
        rw [Database.write_is_error hwr2]
        exact herr
      · show (s.keydir.delete k1).get k = some e
        rw [KeyDir.get_delete_ne s.keydir hne]
        exact hget
      · exact Database.write_resolve hinv hwr2 hres
  · rw [if_neg hc] at hdel
    injection hdel with ha hb
    subst hb
    exact ⟨herr, hinv, e, hget, hres⟩

theorem tracks_step_merge {opts : BitcaskOptions} {s s1 : BitcaskState}
    {k v : Bytes}
    (hmerge : bmerge opts s = (.ok (), s1))
    (hv : is_tombstone v = false)
    (ht : TracksValue s k v) : TracksValue s1 k v := by
  obtain ⟨herr, hinv, e, hget, hres⟩ := ht
  unfold bmerge at hmerge
  rw [check_db_error_ok herr] at hmerge
  simp only at hmerge
  have hinv1 : stInv s.db.flush_writing_file = true :=
    Database.do_flush_stInv hinv
  have hres1 : ResolvesTo s.db.flush_writing_file e.loc v :=
    Database.do_flush_resolve hinv hres
  obtain ⟨ts0, hr0⟩ := hres1
  have hinv0 := stInv_openEmpty (s.db.flush_writing_file).file_id_counter
  cases hloop : write_merged_loop opts.get_database_options
      s.db.flush_writing_file s.keydir
      (Database.openEmpty (s.db.flush_writing_file).file_id_counter) [] with
  | err e1 =>
    rw [hloop] at hmerge
    injection hmerge with ha hb
    cases ha
  | ok pq =>
    rw [hloop] at hmerge
    simp only at hmerge
    injection hmerge with ha hb
    subst hb
    have hloop2 : write_merged_loop opts.get_database_options
        s.db.flush_writing_file s.keydir
        (Database.openEmpty (s.db.flush_writing_file).file_id_counter) [] =
        .ok (pq.1, pq.2) := hloop
    obtain ⟨l, hga, hra⟩ := write_merged_loop_first hloop2 hinv0
      hget (KeyDir.get_nil k) hr0 hv
    have hdist : kdKeysDistinct pq.2 = true :=
      write_merged_loop_distinct hloop2 rfl
    have hinvL : stInv pq.1 = true := write_merged_loop_stInv hloop2 hinv0
    have hinv2 : stInv pq.1.flush_writing_file = true :=
      Database.do_flush_stInv hinvL
    have hres2 : ResolvesTo pq.1.flush_writing_file l v :=
      Database.do_flush_resolve hinvL hra
    refine ⟨?_, ?_, ⟨l, e.tstmp⟩, ?_, ?_⟩
    · show (s.db.flush_writing_file).is_error = none
      rw [show s.db.flush_writing_file = s.db.do_flush_writing_file from rfl,
        Database.do_flush_error]
      exact herr
    · exact hinv2
    · show (pq.2.foldl (fun kd p => kd.put p.1 p.2) s.keydir).get k =
        some ⟨l, e.tstmp⟩
      exact KeyDir.get_foldl_put_of_get_some s.keydir hga hdist
    · exact hres2

theorem tracks_step_sync {s s1 : BitcaskState} {k v : Bytes}
    (hsync : bsync s = (.ok (), s1))
    (ht : TracksValue s k v) : TracksValue s1 k v := by
  unfold bsync at hsync
  injection hsync with ha hb
  subst hb
  exact ht

theorem tracks_run {opts : BitcaskOptions} {ops : List BOp}
    {s s2 : BitcaskState} {k v : Bytes}
    (hv : is_tombstone v = false)
    (havoid : opsAvoid k ops = true)
    (hrun : runOps opts ops s = some s2)
    (ht : TracksValue s k v) : TracksValue s2 k v := by
  induction ops generalizing s with
  | nil =>
    unfold runOps at hrun
    injection hrun with h
    subst h
    exact ht
  | cons op rest ih =>
    unfold runOps at hrun
    have havoid2 : opsAvoid k rest = true := by
      simp only [opsAvoid, List.all_cons, Bool.and_eq_true] at havoid
      exact havoid.2
    have havoid1 := by
      simp only [opsAvoid, List.all_cons, Bool.and_eq_true] at havoid
      exact havoid.1
    cases hexec : execOp opts op s with
    | mk r s1 =>
      rw [hexec] at hrun
      cases r with
      | err e1 => simp only at hrun; cases hrun
      | ok u =>
        cases u
        simp only at hrun
        refine ih havoid2 hrun ?_
        cases op with
        | put k1 v1 =>
          have hne : k1 ≠ k := by simpa using havoid1
          exact tracks_step_put hexec hne ht
        | del k1 =>
          have hne : k1 ≠ k := by simpa using havoid1
          exact tracks_step_del hexec hne ht
        | merge => exact tracks_step_merge hexec hv ht
        | sync => exact tracks_step_sync hexec ht

/-- The tracked fact behind delete semantics: no sticky error and no
keydir entry for `k`. -/
def AbsentKey (s : BitcaskState) (k : Bytes) : Prop :=
  s.db.is_error = none ∧ s.keydir.get k = none

/-- Operations containing no `put(k, _)` (a later `delete(k)` keeps an
absent key absent, so only puts end the "returns `None`" span). -/
def opsAvoidPut (k : Bytes) (ops : List BOp) : Bool :=
  ops.all fun op =>
    match op with
    | .put k1 _ => k1 != k
    | .del _ => true
    | .merge => true
    | .sync => true

theorem bget_of_absent {s : BitcaskState} {k : Bytes}
    (ha : AbsentKey s k) : bget s k = .ok none := by
  obtain ⟨herr, hget⟩ := ha
  unfold bget
  rw [check_db_error_ok herr]
  simp only
  rw [hget]

theorem absent_of_delete {opts : BitcaskOptions} {s s1 : BitcaskState}
    {k : Bytes}
    (hdel : bdelete opts s k = (.ok (), s1)) : AbsentKey s1 k := by
  unfold bdelete at hdel
  cases herr : s.db.is_error with
  | some m =>
    rw [show s.db.check_db_error = .err (.databaseBroken m) by
      simp [Database.check_db_error, herr]] at hdel
    injection hdel with ha hb
    cases ha
  | none =>
    rw [check_db_error_ok herr] at hdel
    simp only at hdel
    by_cases hc : s.keydir.contains_key k
    · rw [if_pos hc] at hdel
      cases hwr : Database.write opts.get_database_options s.db
          ⟨s.clock, k, tombstoneValue⟩ with
      | err e1 =>
        rw [hwr] at hdel
        injection hdel with ha hb
        cases ha
      | ok q =>
        rw [hwr] at hdel
        simp only at hdel
        injection hdel with ha hb
        subst hb
        have hwr2 : Database.write opts.get_database_options s.db
            ⟨s.clock, k, tombstoneValue⟩ = .ok (q.1, q.2) := hwr
        refine ⟨?_, ?_⟩
        · show q.2.is_error = none
          rw [Database.write_is_error hwr2]
          exact herr
        · exact KeyDir.get_delete_self s.keydir k
    · rw [if_neg hc] at hdel
      injection hdel with ha hb
      subst hb
      refine ⟨herr, ?_⟩
      cases hg : s.keydir.get k with
      | none => rfl
      | some e => exact absurd (by simp [KeyDir.contains_key, hg]) hc

theorem absent_step_put {opts : BitcaskOptions} {s s1 : BitcaskState}
    {k k1 v1 : Bytes}
    (hput : bput opts s k1 v1 = (.ok (), s1)) (hne : k1 ≠ k)
    (ha : AbsentKey s k) : AbsentKey s1 k := by
  obtain ⟨herr, hget⟩ := ha
  unfold bput at hput
  by_cases h1 : k1.length > opts.max_key_size
  · rw [if_pos h1] at hput
    injection hput with ha1 hb
    cases ha1
  · rw [if_neg h1] at hput
    by_cases h2 : v1.length > opts.max_value_size
    · rw [if_pos h2] at hput
      injection hput with ha1 hb
      cases ha1
    · rw [if_neg h2] at hput
      rw [check_db_error_ok herr] at hput
      simp only at hput
      cases hwr : Database.write opts.get_database_options s.db
          ⟨s.clock, k1, v1⟩ with
      | err e1 =>
        rw [hwr] at hput
        injection hput with ha1 hb
        cases ha1
      | ok q =>
        rw [hwr] at hput
        simp only at hput
        injection hput with ha1 hb
        subst hb
        have hwr2 : Database.write opts.get_database_options s.db
            ⟨s.clock, k1, v1⟩ = .ok (q.1, q.2) := hwr
        refine ⟨?_, ?_⟩
        · show q.2.is_error = none
          rw [Database.write_is_error hwr2]
          exact herr
        · show (s.keydir.put k1 ⟨q.1, s.clock⟩).get k = none
          rw [KeyDir.get_put_ne s.keydir _ hne]
          exact hget

theorem absent_step_del {opts : BitcaskOptions} {s s1 : BitcaskState}
    {k k1 : Bytes}
    (hdel : bdelete opts s k1 = (.ok (), s1))
    (ha : AbsentKey s k) : AbsentKey s1 k := by
  obtain ⟨herr, hget⟩ := ha
  unfold bdelete at hdel
  rw [check_db_error_ok herr] at hdel
  simp only at hdel
  by_cases hc : s.keydir.contains_key k1
  · rw [if_pos hc] at hdel
    cases hwr : Database.write opts.get_database_options s.db
        ⟨s.clock, k1, tombstoneValue⟩ with
    | err e1 =>
      rw [hwr] at hdel
      injection hdel with ha1 hb
      cases ha1
    | ok q =>
      rw [hwr] at hdel
      simp only at hdel
      injection hdel with ha1 hb
      subst hb
      have hwr2 : Database.write opts.get_database_options s.db
          ⟨s.clock, k1, tombstoneValue⟩ = .ok (q.1, q.2) := hwr
      refine ⟨?_, ?_⟩
      · show q.2.is_error = none
        rw [Database.write_is_error hwr2]
        exact herr
      · show (s.keydir.delete k1).get k = none
        by_cases hk : k1 = k
        · rw [hk]
          exact KeyDir.get_delete_self s.keydir k
        · rw [KeyDir.get_delete_ne s.keydir hk]
          exact hget
  · rw [if_neg hc] at hdel
    injection hdel with ha1 hb
    subst hb
    exact ⟨herr, hget⟩

theorem absent_step_merge {opts : BitcaskOptions} {s s1 : BitcaskState}
    {k : Bytes}
    (hmerge : bmerge opts s = (.ok (), s1))
    (ha : AbsentKey s k) : AbsentKey s1 k := by
  obtain ⟨herr, hget⟩ := ha
  unfold bmerge at hmerge
  rw [check_db_error_ok herr] at hmerge
  simp only at hmerge
  cases hloop : write_merged_loop opts.get_database_options
      s.db.flush_writing_file s.keydir
      (Database.openEmpty (s.db.flush_writing_file).file_id_counter) [] with
  | err e1 =>
    rw [hloop] at hmerge
    injection hmerge with ha1 hb
    cases ha1
  | ok pq =>
    rw [hloop] at hmerge
    simp only at hmerge
    injection hmerge with ha1 hb
    subst hb
    have hloop2 : write_merged_loop opts.get_database_options
        s.db.flush_writing_file s.keydir
        (Database.openEmpty (s.db.flush_writing_file).file_id_counter) [] =
        .ok (pq.1, pq.2) := hloop
    have hnone : pq.2.get k = none :=
      write_merged_loop_get_none hloop2
        (KeyDir.not_mem_of_get_none hget) (KeyDir.get_nil k)
    refine ⟨?_, ?_⟩
    · show (s.db.flush_writing_file).is_error = none
      rw [show s.db.flush_writing_file = s.db.do_flush_writing_file from rfl,
        Database.do_flush_error]
      exact herr
    · show (pq.2.foldl (fun kd p => kd.put p.1 p.2) s.keydir).get k = none
      rw [KeyDir.get_foldl_put_of_not_mem pq.2 s.keydir
        (KeyDir.not_mem_of_get_none hnone)]
      exact hget

theorem absent_run {opts : BitcaskOptions} {ops : List BOp}
    {s s2 : BitcaskState} {k : Bytes}
    (havoid : opsAvoidPut k ops = true)
    (hrun : runOps opts ops s = some s2)
    (ha : AbsentKey s k) : AbsentKey s2 k := by
  induction ops generalizing s with
  | nil =>
    unfold runOps at hrun
    injection hrun with h
    subst h
    exact ha
  | cons op rest ih =>
    unfold runOps at hrun
    have havoid2 : opsAvoidPut k rest = true := by
      simp only [opsAvoidPut, List.all_cons, Bool.and_eq_true] at havoid
      exact havoid.2
    have havoid1 := by
      simp only [opsAvoidPut, List.all_cons, Bool.and_eq_true] at havoid
      exact havoid.1
    cases hexec : execOp opts op s with
    | mk r s1 =>
      rw [hexec] at hrun
      cases r with
      | err e1 => simp only at hrun; cases hrun
      | ok u =>
        cases u
        simp only at hrun
        refine ih havoid2 hrun ?_
        cases op with
        | put k1 v1 =>
          have hne : k1 ≠ k := by simpa using havoid1
          exact absent_step_put hexec hne ha
        | del k1 => exact absent_step_del hexec ha
        | merge => exact absent_step_merge hexec ha
        | sync =>
          unfold execOp bsync at hexec
          injection hexec with ha1 hb
          subst hb
          exact ha

theorem KeyDir.mem_of_get_some {kd : KeyDir} {k : Bytes} {e : KeyDirEntry}
    (h : kd.get k = some e) : (k, e) ∈ kd := by
  induction kd with
  | nil => simp [KeyDir.get_nil] at h
  | cons p rest ih =>
    rw [KeyDir.get_cons] at h
    by_cases hp : p.1 = k
    · rw [if_pos hp] at h
      injection h with h2
      have hpe : p = (k, e) := by
        cases p
        simp only [Prod.mk.injEq]
        exact ⟨hp, h2⟩
      rw [hpe]
      exact List.mem_cons_self _ _
    · rw [if_neg hp] at h
      exact List.mem_cons_of_mem p (ih h)

/-- Every keydir entry resolves to a live (non-tombstone) row whose
rewritten form fits an empty data file: the spec's keydir invariant,
phrased executably.  This is the hypothesis under which `merge` preserves
every `get`. -/
def kdAllGood (opts : BitcaskOptions) (s : BitcaskState) : Bool :=
  s.keydir.all fun p =>
    match s.db.read_value p.2.loc with
    | .ok tv => !is_tombstone tv.value &&
        decide (FILE_HEADER_SIZE + DATA_FILE_KEY_OFFSET + p.1.length +
          tv.value.length ≤ opts.max_data_file_size)
    | .err _ => false

/-- Claim C7, amended: `merge()` preserves the result of `get(k)` for every
key, for every state in which each keydir entry resolves to a live
non-tombstone row (the spec's keydir invariant).  As stated the claim fails:
an entry pointing at a tombstone row, reachable by storing the sentinel as a
user value, is skipped by the merge rewrite while its keydir entry survives
the overlay, and after the merged file set is loaded the entry dangles, so
`get` turns from `Ok(None)` into `TargetFileIdNotFound`. -/
theorem merge_preserves_observable_state (opts : BitcaskOptions) (s : BitcaskState)
    (herr : s.db.is_error = none)
    (hinv : stInv s.db = true)
    (hgood : kdAllGood opts s = true) :
    ∃ s1, bmerge opts s = (.ok (), s1) ∧ ∀ k, bget s1 k = bget s k := by
  have hinv1 : stInv s.db.flush_writing_file = true :=
    Database.do_flush_stInv hinv
  have hinv0 := stInv_openEmpty (s.db.flush_writing_file).file_id_counter
  have hgood2 : ∀ p ∈ s.keydir, ∃ tv,
      (s.db.flush_writing_file).read_value p.2.loc = .ok tv ∧
      is_tombstone tv.value = false ∧
      FILE_HEADER_SIZE + DATA_FILE_KEY_OFFSET + p.1.length + tv.value.length ≤
        opts.max_data_file_size := by
    intro p hp
    simp only [kdAllGood, List.all_eq_true] at hgood
    have := hgood p hp
    cases hr : s.db.read_value p.2.loc with
    | err e1 => rw [hr] at this; cases this
    | ok tv =>
      rw [hr] at this
      simp only [Bool.and_eq_true, Bool.not_eq_true', decide_eq_true_eq] at this
      have hres : ResolvesTo s.db p.2.loc tv.value := ⟨tv.timestamp, hr⟩
      obtain ⟨ts1, hr1⟩ := Database.do_flush_resolve hinv hres
      exact ⟨⟨tv.value, ts1⟩, hr1, this.1, this.2⟩
  obtain ⟨mdb1, new_kd, hloop⟩ := @write_merged_loop_total
    opts.get_database_options s.db.flush_writing_file s.keydir
    (Database.openEmpty (s.db.flush_writing_file).file_id_counter) []
    hinv0
    (fun p hp => by
      obtain ⟨tv, h1, h2, h3⟩ := hgood2 p hp
      exact ⟨tv, h1, fun _ => h3⟩)
  have hinvL : stInv mdb1 = true := write_merged_loop_stInv hloop hinv0
  have hdist : kdKeysDistinct new_kd = true :=
    write_merged_loop_distinct hloop rfl
  refine ⟨⟨new_kd.foldl (fun kd p => kd.put p.1 p.2) s.keydir,
    ⟨(mdb1.flush_writing_file).writing_storage,
     (mdb1.flush_writing_file).stable_storages,
     (mdb1.flush_writing_file).file_id_counter,
     (s.db.flush_writing_file).is_error⟩, s.clock⟩, ?_, ?_⟩
  · unfold bmerge
    rw [check_db_error_ok herr]
    simp only
    rw [hloop]
  · intro k
    have herr2 : (s.db.flush_writing_file).is_error = none := by
      rw [show s.db.flush_writing_file = s.db.do_flush_writing_file from rfl,
        Database.do_flush_error]
      exact herr
    cases hk : s.keydir.get k with
    | none =>
      have hnone : new_kd.get k = none :=
        write_merged_loop_get_none hloop
          (KeyDir.not_mem_of_get_none hk) (KeyDir.get_nil k)
      rw [bget_of_absent ⟨herr, hk⟩]
      refine bget_of_absent ⟨herr2, ?_⟩
      show (new_kd.foldl (fun kd p => kd.put p.1 p.2) s.keydir).get k = none
      rw [KeyDir.get_foldl_put_of_not_mem new_kd s.keydir
        (KeyDir.not_mem_of_get_none hnone)]
      exact hk
    | some e =>
      obtain ⟨tv, hr1, htomb, hfit⟩ :=
        hgood2 (k, e) (KeyDir.mem_of_get_some hk)
      obtain ⟨l, hga, hra⟩ := write_merged_loop_first hloop hinv0 hk
        (KeyDir.get_nil k) hr1 htomb
      have hres2 : ResolvesTo mdb1.flush_writing_file l tv.value :=
        Database.do_flush_resolve hinvL hra
      have hget1 : bget s k = .ok (some tv.value) := by
        have hres0 : ResolvesTo s.db e.loc tv.value := by
          simp only [kdAllGood, List.all_eq_true] at hgood
          have := hgood (k, e) (KeyDir.mem_of_get_some hk)
          cases hr : s.db.read_value e.loc with
          | err e1 => rw [hr] at this; cases this
          | ok tv2 =>
            have : tv2.value = tv.value := by
              have hres : ResolvesTo s.db e.loc tv2.value :=
                ⟨tv2.timestamp, hr⟩
              obtain ⟨ts2, hr2⟩ := Database.do_flush_resolve hinv hres
              have hr1b : s.db.do_flush_writing_file.read_value e.loc =
                  Res.ok tv := hr1
              rw [hr1b] at hr2
              injection hr2 with h3
              rw [h3]
            exact this ▸ ⟨tv2.timestamp, hr⟩
        obtain ⟨ts3, hr3⟩ := hres0
        unfold bget
        rw [check_db_error_ok herr]
        simp only
        rw [hk]
        simp only
        rw [hr3]
        simp only [htomb]
        rfl
      rw [hget1]
      refine bget_of_tracks ⟨herr2, Database.do_flush_stInv hinvL,
        ⟨l, e.tstmp⟩, ?_, hres2⟩ htomb
      show (new_kd.foldl (fun kd p => kd.put p.1 p.2) s.keydir).get k =
        some ⟨l, e.tstmp⟩
      exact KeyDir.get_foldl_put_of_get_some s.keydir hga hdist

/-! ### Concrete states for witnesses and counterexamples -/

/-- Options with a 100-byte data-file limit, used by the concrete runs. -/
def sampleOpts : BitcaskOptions := ⟨100, 100, 64, 1024⟩

/-- Options whose 30-byte data-file limit no row fits (a row is at least
`DATA_FILE_KEY_OFFSET = 28` bytes plus the file header). -/
def tinyOpts : BitcaskOptions := ⟨30, 30, 64, 1024⟩

/-- State after `put([1], [2])` on a fresh database. -/
def c1_s1 : BitcaskState := (bput sampleOpts openEmptyBitcask [1] [2]).2

/-- Later operations touching only other keys, plus a merge and a sync. -/
def c1_ops : List BOp := [.put [3] [4], .sync, .del [3], .merge]

/-- State after running `c1_ops` from `c1_s1`. -/
def c1_s2 : BitcaskState := (runOps sampleOpts c1_ops c1_s1).getD openEmptyBitcask

/-- State after `put([1], [2])` then `delete([1])`. -/
def c2_s1 : BitcaskState := (bdelete sampleOpts c1_s1 [1]).2

/-- Later operations with no `put([1], _)`, including a `delete([1])`. -/
def c2_ops : List BOp := [.put [3] [4], .del [1], .merge, .sync]

/-- State after running `c2_ops` from `c2_s1`. -/
def c2_s2 : BitcaskState := (runOps sampleOpts c2_ops c2_s1).getD openEmptyBitcask

/-- A state whose sticky error flag is set: under `tinyOpts` the very first
`put` overflows even a fresh file, the append fails and `put` marks the
database broken. -/
def errState : BitcaskState := (bput tinyOpts openEmptyBitcask [0] [0]).2

/-- The database after one `put` under `sampleOpts`: its writable file
holds one 30-byte row, so the append cursor stands at 38. -/
def c6_db : Database := c1_s1.db

/-- A 69-byte row: it does not fit after `c6_db`'s cursor (38 + 69 > 100)
but fits an empty file (8 + 69 ≤ 100). -/
def c6_row : Row := ⟨5, [7], List.replicate 40 9⟩

/-- The S6 scenario state:
`put("a","1"); put("a","2"); put("b","1"); delete("b")` (keys and values as
single bytes 97, 98, 49, 50). -/
def s6_state : BitcaskState :=
  (bdelete sampleOpts
    ((bput sampleOpts
      ((bput sampleOpts
        ((bput sampleOpts openEmptyBitcask [97] [49]).2)
        [97] [50]).2)
      [98] [49]).2)
    [98]).2

/-- A state whose keydir entry for key `[11]` points at a tombstone row:
the sentinel was stored through the public `put`. -/
def c7_bad : BitcaskState :=
  (bput sampleOpts ((bput sampleOpts openEmptyBitcask [10] [49]).2)
    [11] tombstoneValue).2

/-- A database holding data files 1 (one live row) and 2 (one tombstone
row), produced by a put whose delete rolled the first file over
(max_data_file_size 60). -/
def c8_state : BitcaskState :=
  (bdelete ⟨60, 60, 64, 1024⟩
    ((bput ⟨60, 60, 64, 1024⟩ openEmptyBitcask [1] [2]).2) [1]).2

/-! ### Claim theorems -/

/-- Claim C1, amended: read-your-writes holds for every accepted value
other than the reserved tombstone sentinel.  After a successful
`put(k,v)` with `v ≠ "bitcask_tombstone"`, `get(k)` returns `Some(v)`
through any sequence of successful operations that contains no
`put(k,_)` and no `delete(k)`.  As stated the claim fails for
`v = "bitcask_tombstone"`: that value is accepted by `put` but `get`
then returns `None` (see the counterexample). -/
theorem bitcask_read_your_writes (opts : BitcaskOptions)
    (s0 s1 s2 : BitcaskState) (k v : Bytes) (ops : List BOp)
    (hinv : stInv s0.db = true)
    (hv : v ≠ tombstoneValue)
    (hput : bput opts s0 k v = (.ok (), s1))
    (havoid : opsAvoid k ops = true)
    (hrun : runOps opts ops s1 = some s2) :
    bget s2 k = .ok (some v) := by
  have hvb : is_tombstone v = false := (is_tombstone_false_iff v).mpr hv
  exact bget_of_tracks (tracks_run hvb havoid hrun (tracks_of_put hinv hput)) hvb

/-- Witness for C1: a concrete run (put `[1] ↦ [2]`, then a put and a
delete of another key, a sync and a merge) after which `get [1]` still
returns `[2]`. -/
theorem bitcask_read_your_writes_witness : bget c1_s2 [1] = .ok (some [2]) :=
  bitcask_read_your_writes sampleOpts openEmptyBitcask c1_s1 c1_s2 [1] [2]
    c1_ops (by decide) (by decide) (by decide) (by decide) (by decide)

/-- Counterexample to C1 as stated: `put` accepts the tombstone sentinel
as a value (it is within the size limits), yet `get` immediately returns
`None` rather than `Some(sentinel)`. -/
theorem bitcask_read_your_writes_counterexample :
    (bput sampleOpts openEmptyBitcask [1] tombstoneValue).1 = .ok () ∧
    bget (bput sampleOpts openEmptyBitcask [1] tombstoneValue).2 [1] = .ok none ∧
    (Res.ok none : Res BitcaskError (Option Bytes)) ≠
      .ok (some tombstoneValue) := by
  refine ⟨rfl, rfl, ?_⟩
  decide

/-- Claim C2: after a successful `delete(k)`, `get(k)` returns `None`
through any sequence of successful operations containing no `put(k,_)`
(later deletes of `k` are no-ops on the absent key). -/
theorem bitcask_delete_semantics (opts : BitcaskOptions)
    (s0 s1 s2 : BitcaskState) (k : Bytes) (ops : List BOp)
    (hdel : bdelete opts s0 k = (.ok (), s1))
    (havoid : opsAvoidPut k ops = true)
    (hrun : runOps opts ops s1 = some s2) :
    bget s2 k = .ok none :=
  bget_of_absent (absent_run havoid hrun (absent_of_delete hdel))

/-- Witness for C2: delete key `[1]`, then a put of another key, a second
delete of `[1]`, a merge and a sync; `get [1]` still returns `None`. -/
theorem bitcask_delete_semantics_witness : bget c2_s2 [1] = .ok none :=
  bitcask_delete_semantics sampleOpts c1_s1 c2_s1 c2_s2 [1] c2_ops
    (by decide) (by decide) (by decide)

/-- Claim C3 (code bug): option validation does not behave as specified.
In the older facade every zero-valued option passes: each check builds
`Some(InvalidParameter(..))` as an expression statement and discards it
(missing `return`, and the `<= 0` comparison on an unsigned type is dead
anyway), so `validate` is constantly `None` and `open` accepts
`max_file_size = 0`.  In the newer facade a zero `init_data_file_capacity`
is rejected under the wrong name, `"max_file_size"`. -/
theorem option_validation_dead_check :
    BitcaskOptionsV0.validate ⟨0, 64, 1024⟩ = none ∧
    BitcaskOptionsV0.openRejects ⟨0, 64, 1024⟩ = false ∧
    BitcaskOptions.validate ⟨1, 0, 1, 1⟩ =
      some (.invalidParameter "max_file_size" "need a positive value") :=
  ⟨rfl, rfl, rfl⟩

/-- Claim C4, amended: once the sticky error flag holds a message `m`,
`get`, `has`, `put` (of a size-valid pair), `delete`, `foreach_key`,
`fold_key`, `foreach`, `fold` and `merge` all fail fast with
`DatabaseBroken(m)` and leave the state unchanged, and no public
operation ever clears the flag.  As stated the claim fails: `sync` and
`stats` do not consult the flag and still succeed (see the
counterexample). -/
theorem sticky_error_fails_fast (opts : BitcaskOptions) (s : BitcaskState)
    (m : String) (k v : Bytes) (T : Type)
    (f : Bytes → Option T → Res BitcaskError (Option T))
    (g : Bytes → Bytes → Option T → Res BitcaskError (Option T))
    (init : Option T)
    (he : s.db.is_error = some m)
    (hk : k.length ≤ opts.max_key_size)
    (hv : v.length ≤ opts.max_value_size) :
    bget s k = .err (.databaseBroken m) ∧
    bhas s k = .err (.databaseBroken m) ∧
    bput opts s k v = (.err (.databaseBroken m), s) ∧
    bdelete opts s k = (.err (.databaseBroken m), s) ∧
    bforeach_key s = .err (.databaseBroken m) ∧
    bfold_key s f init = .err (.databaseBroken m) ∧
    bforeach s = .err (.databaseBroken m) ∧
    bfold s g init = .err (.databaseBroken m) ∧
    bmerge opts s = (.err (.databaseBroken m), s) ∧
    ∀ op, ((execOp opts op s).2).db.is_error = some m := by
  have hchk : s.db.check_db_error = .err (.databaseBroken m) := by
    simp [Database.check_db_error, he]
  refine ⟨?_, ?_, ?_, ?_, ?_, ?_, ?_, ?_, ?_, ?_⟩
  · unfold bget
    rw [hchk]
  · unfold bhas
    rw [hchk]
  · unfold bput
    rw [if_neg (by omega), if_neg (by omega), hchk]
  · unfold bdelete
    rw [hchk]
  · unfold bforeach_key
    rw [hchk]
  · unfold bfold_key
    rw [hchk]
  · unfold bforeach
    rw [hchk]
  · unfold bfold
    rw [hchk]
  · unfold bmerge
    rw [hchk]
  · intro op
    cases op with
    | put k1 v1 =>
      show ((bput opts s k1 v1).2).db.is_error = some m
      unfold bput
      by_cases h1 : k1.length > opts.max_key_size
      · rw [if_pos h1]
        exact he
      · rw [if_neg h1]
        by_cases h2 : v1.length > opts.max_value_size
        · rw [if_pos h2]
          exact he
        · rw [if_neg h2, hchk]
          exact he
    | del k1 =>
      show ((bdelete opts s k1).2).db.is_error = some m
      unfold bdelete
      rw [hchk]
      exact he
    | merge =>
      show ((bmerge opts s).2).db.is_error = some m
      unfold bmerge
      rw [hchk]
      exact he
    | sync => exact he

/-- Witness for C4: on the concrete errored state, `get`, `put`,
`foreach_key` and `fold` (with a counting folder) fail fast with the
stored message. -/
theorem sticky_error_fails_fast_witness :
    bget errState [1] = .err (.databaseBroken "storage overflow") ∧
    bput tinyOpts errState [1] [2] =
      (.err (.databaseBroken "storage overflow"), errState) ∧
    bforeach_key errState = .err (.databaseBroken "storage overflow") ∧
    bfold errState (fun _ _ a => .ok (a.map (· + 1))) (some 0) =
      .err (.databaseBroken "storage overflow") := by
  have h := sticky_error_fails_fast tinyOpts errState "storage overflow"
    [1] [2] Nat (fun _ a => .ok a) (fun _ _ a => .ok (a.map (· + 1)))
    (some 0) (by decide) (by decide) (by decide)
  exact ⟨h.1, h.2.2.1, h.2.2.2.2.1, h.2.2.2.2.2.2.2.1⟩

/-- Counterexample to C4 as stated: with the sticky error set, `sync` and
`stats` still succeed instead of failing with `DatabaseBroken`. -/
theorem sticky_error_sync_counterexample :
    errState.db.is_error = some "storage overflow" ∧
    bsync errState = (.ok (), errState) ∧
    bstats errState = .ok ⟨1, 0⟩ :=
  ⟨rfl, rfl, rfl⟩

/-- Claim C5: the encoded row is exactly
`crc32(4 bytes BE) | timestamp(8 BE) | key_size(8 BE) | value_size(8 BE) |
key | value`, the CRC is computed over everything from the timestamp field
through the end of the value, and the buffer length is exactly
`4+8+8+8+|key|+|value|`. -/
theorem row_codec_layout (key value : Bytes) (timestamp : Nat) :
    (RowToWrite.new_with_timestamp key value timestamp).to_bytes =
      u32be (crc32cksum (u64be timestamp ++ u64be key.length ++
        u64be value.length ++ key ++ value)) ++
      (u64be timestamp ++ u64be key.length ++ u64be value.length ++
        key ++ value) ∧
    (RowToWrite.new_with_timestamp key value timestamp).to_bytes.length =
      4 + 8 + 8 + 8 + key.length + value.length := by
  constructor
  · simp [RowToWrite.new_with_timestamp, RowToWrite.to_bytes, List.append_assoc]
  · simp [RowToWrite.new_with_timestamp, RowToWrite.to_bytes,
      u32be, u64be]
    omega

/-- Claim C6, amended: when an append overflows the active writable file,
`write_row` reports `StorageOverflow` and writes nothing, and — provided
the row fits an empty file (`FILE_HEADER_SIZE + row.size ≤
max_data_file_size`, which forces the active file to be non-empty) —
`Database::write` rolls the active file to read-only, inserts it into the
stable map with its rows untouched, creates a new writable file with the
next allocated id, retries exactly once and returns the location of the
row at the head of the new file.  As stated the claim fails for a row too
big for any file: the retry overflows again and the error propagates, no
location is returned (see the counterexample); when the active file is
empty the roll itself is skipped. -/
theorem overflow_rollover (opts : DatabaseOptions) (db : Database) (row : Row)
    (hro : db.writing_storage.readonly = false)
    (hov : db.writing_storage.write_offset + row.size > opts.max_data_file_size)
    (hfit : FILE_HEADER_SIZE + row.size ≤ opts.max_data_file_size) :
    db.writing_storage.write_row opts.max_data_file_size row =
      .err .storageOverflow ∧
    Database.write opts db row = .ok
      (⟨db.file_id_counter + 1, FILE_HEADER_SIZE, row.size⟩,
       Database.mk
         (DataStorage.mk (db.file_id_counter + 1) [(FILE_HEADER_SIZE, row)] false)
         (db.stable_storages ++ [db.writing_storage.transit_to_readonly])
         (db.file_id_counter + 1)
         db.is_error) := by
  have h1 := DataStorage.write_row_overflow hro hov
  refine ⟨h1, ?_⟩
  unfold Database.write
  rw [h1]
  simp only
  have hfs : ¬ (db.writing_storage.file_size == 0) = true := by
    have hw : db.writing_storage.write_offset =
        FILE_HEADER_SIZE + db.writing_storage.file_size := rfl
    simp only [beq_iff_eq]
    omega
  have hflush : db.do_flush_writing_file =
      Database.mk (DataStorage.new (db.file_id_counter + 1))
        (db.stable_storages ++ [db.writing_storage.transit_to_readonly])
        (db.file_id_counter + 1) db.is_error := by
    unfold Database.do_flush_writing_file
    rw [if_neg hfs]
  rw [hflush]
  rw [show (Database.mk (DataStorage.new (db.file_id_counter + 1))
      (db.stable_storages ++ [db.writing_storage.transit_to_readonly])
      (db.file_id_counter + 1) db.is_error).writing_storage =
      DataStorage.new (db.file_id_counter + 1) from rfl]
  rw [DataStorage.write_row_ok_of _ _ _ rfl
    (by simp [DataStorage.new, DataStorage.write_offset, DataStorage.file_size]
        omega)]
  simp [DataStorage.new, DataStorage.write_offset, DataStorage.file_size]

/-- Witness for C6: on the concrete one-row database, the 69-byte row
overflows, the file is rolled and the retry lands the row at the head of
file 2. -/
theorem overflow_rollover_witness :
    c6_db.writing_storage.write_row
      sampleOpts.get_database_options.max_data_file_size c6_row =
      .err .storageOverflow ∧
    Database.write sampleOpts.get_database_options c6_db c6_row = .ok
      (⟨c6_db.file_id_counter + 1, FILE_HEADER_SIZE, c6_row.size⟩,
       Database.mk
         (DataStorage.mk (c6_db.file_id_counter + 1)
           [(FILE_HEADER_SIZE, c6_row)] false)
         (c6_db.stable_storages ++ [c6_db.writing_storage.transit_to_readonly])
         (c6_db.file_id_counter + 1)
         c6_db.is_error) :=
  overflow_rollover sampleOpts.get_database_options c6_db c6_row
    (by decide) (by decide) (by decide)

/-- Counterexample to C6 as stated: a row that exceeds
`max_data_file_size` even in an empty file is not retried onto a new
file with success; `Database::write` returns the overflow error and no
`RowLocation`. -/
theorem overflow_no_rollover_counterexample :
    Database.write tinyOpts.get_database_options (Database.openEmpty 0)
      ⟨0, [1], [2]⟩ = .err (.storageError .storageOverflow) := rfl

/-- Witness for C7: the spec's S6 scenario.  After
`put("a","1"); put("a","2"); put("b","1"); delete("b")`, `merge()`
succeeds, `get("a")` returns `"2"` and `get("b")` returns `None`. -/
theorem merge_s6_witness :
    (bmerge sampleOpts s6_state).1 = .ok () ∧
    bget (bmerge sampleOpts s6_state).2 [97] = .ok (some [50]) ∧
    bget (bmerge sampleOpts s6_state).2 [98] = .ok none := by
  obtain ⟨s1, hm, hg⟩ := merge_preserves_observable_state sampleOpts s6_state
    (by decide) (by decide) (by decide)
  rw [hm]
  refine ⟨rfl, ?_, ?_⟩
  · show bget s1 [97] = .ok (some [50])
    rw [hg [97]]
    decide
  · show bget s1 [98] = .ok none
    rw [hg [98]]
    decide

/-- Counterexample to C7 as stated: with a keydir entry pointing at a
tombstone row (the sentinel stored as a user value), `get [11]` answers
`Ok(None)` before the merge but `TargetFileIdNotFound` after it: the
merge skipped the tombstone, the overlay kept the stale entry, and the
old file is no longer loaded. -/
theorem merge_tombstone_counterexample :
    bget c7_bad [11] = .ok none ∧
    (bmerge sampleOpts c7_bad).1 = .ok () ∧
    bget (bmerge sampleOpts c7_bad).2 [11] =
      .err (.targetFileIdNotFound 1) :=
  ⟨rfl, rfl, rfl⟩

/-- Claim C8 (code bug): the recovery iterator visits file ids in
ascending order, not the specified strictly descending order.
`recovery_iter` builds the id vector `sort(); reverse()` (descending),
but `DatabaseRecoverIter::new` and `next` take ids with `Vec::pop`,
which consumes the vector from the back — smallest id first.  On a
directory with data files 1 and 2 the rows of file 1 are yielded before
the rows of file 2 (with the tombstone flag set exactly on sentinel
values); the spec's skip-first keydir rebuild would then keep the oldest
version of every key, contradicting the repository's recovery tests. -/
theorem recovery_iteration_ascending :
    popOrder (recovery_file_ids c8_state.db) = [1, 2] ∧
    database_recover_rows c8_state.db [] =
      [⟨1, 0, 8, 30, [1], false⟩, ⟨2, 1, 8, 46, [1], true⟩] :=
  ⟨rfl, rfl⟩

/-- Claim C9: storing the reserved tombstone sentinel as an ordinary
value through the public `put` is accepted without error, and a
subsequent `get` of the key returns `None` — indistinguishable from a
`delete` through `get`. -/
theorem tombstone_put_get_none (opts : BitcaskOptions) (s : BitcaskState)
    (k : Bytes)
    (herr : s.db.is_error = none)
    (hinv : stInv s.db = true)
    (hk : k.length ≤ opts.max_key_size)
    (hv : tombstoneValue.length ≤ opts.max_value_size)
    (hfit : FILE_HEADER_SIZE + DATA_FILE_KEY_OFFSET + k.length +
      tombstoneValue.length ≤ opts.max_data_file_size) :
    ∃ s1, bput opts s k tombstoneValue = (.ok (), s1) ∧
      bget s1 k = .ok none := by
  obtain ⟨loc, db1, hwr⟩ := @Database.write_total
    opts.get_database_options s.db ⟨s.clock, k, tombstoneValue⟩ hinv
    (by simp only [Row.size, BitcaskOptions.get_database_options]; omega)
  refine ⟨⟨s.keydir.put k ⟨loc, s.clock⟩, db1, s.clock + 1⟩, ?_, ?_⟩
  · unfold bput
    rw [if_neg (by omega), if_neg (by omega), check_db_error_ok herr]
    simp only
    rw [hwr]
  · unfold bget
    have herr1 : db1.is_error = none := by
      rw [Database.write_is_error hwr]
      exact herr
    rw [check_db_error_ok herr1]
    simp only
    rw [show KeyDir.get (s.keydir.put k ⟨loc, s.clock⟩) k =
      some ⟨loc, s.clock⟩ from KeyDir.get_put_self s.keydir k ⟨loc, s.clock⟩]
    simp only
    rw [Database.write_new hinv hwr]
    simp [is_tombstone]

/-- Witness for C9: on a fresh database with the sample options, putting
the sentinel under key `[1]` succeeds and `get [1]` returns `None`. -/
theorem tombstone_put_get_none_witness :
    ∃ s1, bput sampleOpts openEmptyBitcask [1] tombstoneValue =
      (.ok (), s1) ∧ bget s1 [1] = .ok none :=
  tombstone_put_get_none sampleOpts openEmptyBitcask [1]
    (by decide) (by decide) (by decide) (by decide) (by decide)

/-- Claim C10: deleting a key that is absent from the keydir is a silent
no-op: `delete(k)` returns `Ok` and the state — keydir, files, clock —
is exactly unchanged (on an instance whose sticky error flag is unset;
an errored instance fails fast per the sticky-error rule). -/
theorem delete_absent_noop (opts : BitcaskOptions) (s : BitcaskState)
    (k : Bytes)
    (herr : s.db.is_error = none)
    (habs : s.keydir.get k = none) :
    bdelete opts s k = (.ok (), s) := by
  unfold bdelete
  rw [check_db_error_ok herr]
  simp only
  rw [if_neg (by simp [KeyDir.contains_key, habs])]

/-- Witness for C10: deleting key `[1]` on the fresh empty database
returns `Ok` and the state is unchanged. -/
theorem delete_absent_noop_witness :
    bdelete sampleOpts openEmptyBitcask [1] = (.ok (), openEmptyBitcask) :=
  delete_absent_noop sampleOpts openEmptyBitcask [1] rfl rfl

end Bitcask
